import Mathlib

/-
Verification of the FluffyViz data-preparation scripts.

The repository contains three Python scripts:
  * sample-data/transform_wildchat_dataset.py      (Flattener A, message-list source)
  * sample-data/transform_huggingface_dataset.py   (Flattener B, wide-column source)
  * sample-data/create_wildchat_subset.py          (stratified subset sampler)

This file gives a shallow embedding of the core logic of the three scripts
and proves properties of that embedding.  Modelling conventions:

  * Python strings are `List Char` (`Str` below); `len` is `List.length`
    (both count unicode code points), `str.strip()` is `pyStrip` (whitespace
    characters as in Python's `str.strip` for the ASCII range), and the
    Python substring test `a in b` is `substr a b`.
  * Timestamps are integers counting seconds from the POSIX epoch; the
    `datetime`/`timedelta` arithmetic of the scripts becomes integer
    arithmetic, and the final `strftime` textual rendering (an order-
    preserving external primitive) is out of scope.
  * The process-global `random` stream is passed in explicitly: each random
    draw site becomes a function parameter (`rng`, `uidDraw`, `modelDraw`)
    indexed by the position of the draw.  With the fixed seed of the
    scripts these are fixed functions; theorems quantify over them.
  * `float` arithmetic is modelled exactly over `ℚ`; `round(x, 5)` becomes
    `round5` (rounding to 5 decimal places; the tie-breaking rule of
    Python's float `round` at exact half-way points is not modelled).
  * CSV encode/decode is out of scope; the sampler reads rows whose fields
    are opaque strings except `turn_id`, the only field it parses.
  * In the sampler, `set(selected_single + selected_multi)` iterates in an
    order that is not specified by the input; the iteration order is a
    parameter `selOrder`, constrained to be a permutation of the selected
    session ids.
-/

namespace FluffyViz

/-! ### Python string primitives shared by the scripts -/

/-- Python strings, as lists of unicode code points. -/
abbrev Str := List Char

/-- A Lean string literal viewed as a Python string. -/
def lit (s : String) : Str := s.data

/-- The whitespace characters stripped by Python's `str.strip()` (ASCII range). -/
def pyIsSpace (c : Char) : Bool :=
  c == ' ' || c == '\t' || c == '\n' || c == '\r' || c == '\x0b' || c == '\x0c'

/-- Python `str.strip()`: remove leading and trailing whitespace. -/
def pyStrip (s : Str) : Str :=
  ((s.dropWhile pyIsSpace).reverse.dropWhile pyIsSpace).reverse

/-- `startsWith needle hay`: `needle` is an initial segment of `hay`. -/
def startsWith : Str → Str → Bool
  | [], _ => true
  | _ :: _, [] => false
  | a :: as, b :: bs => a == b && startsWith as bs

/-- Python's substring test `needle in hay`. -/
def substr (needle : Str) : Str → Bool
  | [] => needle.isEmpty
  | c :: rest => startsWith needle (c :: rest) || substr needle rest

/-- Python `round(x, 5)`: round to 5 decimal places. -/
def round5 (q : ℚ) : ℚ := (round (q * 100000) : ℚ) / 100000

/-- `estimate_tokens` (identical in both flatteners): `len(text) // 4 if text else 0`;
for the empty string both branches give `0`. -/
def estimate_tokens (text : Str) : Nat := text.length / 4

/-- Decimal digit character for `n < 10`. -/
def digitChar (n : Nat) : Char := Char.ofNat (48 + n)

/-- Decimal rendering of a natural number, as produced by Python's `f"{n}"`.
Structured as: last digit appended to the rendering of the remaining digits. -/
def natStr (n : Nat) : Str :=
  if _h : n < 10 then [digitChar n]
  else natStr (n / 10) ++ [digitChar (n % 10)]
termination_by n
decreasing_by exact Nat.div_lt_self (by omega) (by omega)

/-- Numeric value of a digit character. -/
def digitVal (c : Char) : Nat := c.toNat - 48

/-- Parse a decimal digit string (used only in proofs, to invert `natStr`). -/
def parseNat (s : Str) : Nat := s.foldl (fun acc c => acc * 10 + digitVal c) 0

/-- Python's `f"{n:05d}"` for a natural number: pad with leading zeros to width 5. -/
def pad5 (n : Nat) : Str := List.replicate (5 - (natStr n).length) '0' ++ natStr n

/-- Python truthiness of an optional string (`None` and `""` are falsy). -/
def truthyOpt : Option Str → Bool
  | none => false
  | some s => !s.isEmpty

/-! ### The turn-level output record shared by both flatteners -/

/-- The synthetic usage metadata attached to each turn
(`generate_synthetic_metadata`'s return value). -/
structure Metadata where
  prompt_tokens : Nat
  completion_tokens : Nat
  total_tokens : Nat
  latency_ms : Nat
  cost_usd : ℚ

/-- One output row of a flattener, before the global `turn_id` is attached. -/
structure TurnData where
  session_id : Str
  user_id : Str
  timestamp : Int
  user_message : Str
  assistant_message : Str
  model : Str
  prompt_tokens : Nat
  completion_tokens : Nat
  total_tokens : Nat
  latency_ms : Nat
  cost_usd : ℚ
deriving Inhabited

/-- One output row of a flattener, with its globally assigned `turn_id`. -/
structure Turn where
  turn_id : Nat
  data : TurnData
deriving Inhabited

/-- Build a `TurnData` from the identifying fields and the synthetic metadata
(the `{..., **metadata}` dict construction of the scripts). -/
def mkTurnData (sid uid : Str) (ts : Int) (u a model : Str) (md : Metadata) : TurnData :=
  { session_id := sid, user_id := uid, timestamp := ts,
    user_message := u, assistant_message := a, model := model,
    prompt_tokens := md.prompt_tokens, completion_tokens := md.completion_tokens,
    total_tokens := md.total_tokens, latency_ms := md.latency_ms,
    cost_usd := md.cost_usd }

namespace WC

/-!
### Flattener A: `transform_wildchat_dataset.py`
-/

/-- One element of a record's `messages` list; `msg.get("role", "")` and
`msg.get("content", "")` make a missing field the empty string, so both
fields are plain strings here. -/
structure Msg where
  role : Str
  content : Str
deriving DecidableEq, Repr

/-- The per-model price pair selected by `calculate_cost`'s normalized
substring chain over `MODEL_COSTS`, with the default `(0.001, 0.002)`. -/
def cost_pair (model : Str) : ℚ × ℚ :=
  let model_key := model.map Char.toLower
  if substr (lit "gpt-4") model_key && !substr (lit "turbo") model_key then
    (3/100, 6/100)
  else if substr (lit "gpt-4") model_key && substr (lit "turbo") model_key then
    (1/100, 3/100)
  else if substr (lit "gpt-3.5") model_key then
    (15/10000, 2/1000)
  else if substr (lit "claude-3") model_key then
    (3/1000, 15/1000)
  else if substr (lit "claude") model_key then
    (8/1000, 24/1000)
  else if substr (lit "deepseek") model_key then
    (14/10000, 28/10000)
  else
    (1/1000, 2/1000)

/-- `calculate_cost` of `transform_wildchat_dataset.py`. -/
def calculate_cost (model : Str) (prompt_tokens completion_tokens : Nat) : ℚ :=
  (prompt_tokens : ℚ) / 1000 * (cost_pair model).1
    + (completion_tokens : ℚ) / 1000 * (cost_pair model).2

/-- `generate_synthetic_metadata` of `transform_wildchat_dataset.py`; the two
`random.randint` draws are the parameters `latBase` (from `[1000, 2000]`) and
`latPerTok` (from `[80, 120]`). -/
def generate_synthetic_metadata (user_message assistant_message model : Str)
    (latBase latPerTok : Nat) : Metadata :=
  let prompt_tokens := estimate_tokens user_message
  let completion_tokens := estimate_tokens assistant_message
  { prompt_tokens := prompt_tokens, completion_tokens := completion_tokens,
    total_tokens := prompt_tokens + completion_tokens,
    latency_ms := latBase + completion_tokens * latPerTok,
    cost_usd := round5 (calculate_cost model prompt_tokens completion_tokens) }

/-- The loop body of `extract_turns_from_messages`: walk the message list
carrying the pending user message (`user_message` in the script, always a
stripped non-empty string or `None`) and the 1-based `turn_num` counter.
`rng k` gives the pair of `randint` draws consumed by the `k`-th emission
(0-based) of this record. -/
def extractAux (sid uid model : Str) (base : Int) (rng : Nat → Nat × Nat) :
    Option Str → Nat → List Msg → List TurnData
  | _, _, [] => []
  | pending, turn_num, msg :: rest =>
    let content := pyStrip msg.content
    if content = [] then
      extractAux sid uid model base rng pending turn_num rest
    else if msg.role = lit "user" then
      extractAux sid uid model base rng (some content) turn_num rest
    else if msg.role = lit "assistant" ∧ truthyOpt pending = true then
      let u := pending.getD []
      let draws := rng (turn_num - 1)
      let md := generate_synthetic_metadata u content model draws.1 draws.2
      mkTurnData sid uid (base + 30 * turn_num) u content model md
        :: extractAux sid uid model base rng none (turn_num + 1) rest
    else
      extractAux sid uid model base rng pending turn_num rest

/-- `extract_turns_from_messages` of `transform_wildchat_dataset.py`. -/
def extract_turns_from_messages (messages : List Msg)
    (conversation_hash hashed_ip model : Str) (base_timestamp : Int)
    (rng : Nat → Nat × Nat) : List TurnData :=
  extractAux conversation_hash hashed_ip model base_timestamp rng none 1 messages

/-- One source record of the wildchat dataset.  `none` in an optional field
stands for a missing key (for `timestamp`: missing, falsy, or unparseable,
which all fall back to the synthetic base). An absent or empty `messages`
list yields no turns either way. -/
structure WCRecord where
  conversation_hash : Option Str
  hashed_ip : Option Str
  model : Option Str
  timestamp : Option Int
  messages : List Msg

/-- POSIX seconds of `datetime(2024, 1, 1)` (naive, read as UTC). -/
def epochWC : Int := 1704067200

/-- `row.get("conversation_hash", f"conv_{idx}")`. -/
def sessionOf (idx : Nat) (row : WCRecord) : Str :=
  row.conversation_hash.getD (lit "conv_" ++ natStr idx)

/-- `row.get("hashed_ip", f"user_{idx}")`. -/
def userOf (idx : Nat) (row : WCRecord) : Str :=
  row.hashed_ip.getD (lit "user_" ++ natStr idx)

/-- `row.get("model", "unknown")`. -/
def modelOf (row : WCRecord) : Str := row.model.getD (lit "unknown")

/-- The conversation base timestamp: the record's own when present and
parseable, else `datetime(2024, 1, 1) + timedelta(hours=idx)`. -/
def baseOf (idx : Nat) (row : WCRecord) : Int :=
  row.timestamp.getD (epochWC + 3600 * idx)

/-- The turns produced from one source record by the main loop. -/
def processRecord (idx : Nat) (row : WCRecord) (rng : Nat → Nat × Nat) : List TurnData :=
  extract_turns_from_messages row.messages (sessionOf idx row) (userOf idx row)
    (modelOf row) (baseOf idx row) rng

/-- The concatenated turns of all records, starting at record index `idx`
with `cnt` turns already emitted (the `rng` stream is indexed by the global
emission count, matching the single process-global random stream). -/
def mainDatas (rng : Nat → Nat × Nat) : Nat → Nat → List WCRecord → List TurnData
  | _, _, [] => []
  | idx, cnt, row :: rest =>
    let ts := processRecord idx row (fun k => rng (cnt + k))
    ts ++ mainDatas rng (idx + 1) (cnt + ts.length) rest

/-- `main` of `transform_wildchat_dataset.py`: all turns of all records with
global `turn_id`s assigned from 1 in emission order. -/
def main (records : List WCRecord) (rng : Nat → Nat × Nat) : List Turn :=
  (mainDatas rng 0 0 records).enum.map fun p => { turn_id := p.1 + 1, data := p.2 }

/-- The resolved session ids of the records, in order, starting at index `idx`. -/
def resolvedSessionsFrom : Nat → List WCRecord → List Str
  | _, [] => []
  | idx, row :: rest => sessionOf idx row :: resolvedSessionsFrom (idx + 1) rest

end WC

namespace HF

/-!
### Flattener B: `transform_huggingface_dataset.py`
-/

/-- One source record of the huggingface dataset: the wide columns `P1..P4`,
`R1..R4` (`P5` is ignored by the script); `none` stands for a missing key or
a `None` value. -/
structure HFRecord where
  P1 : Option Str
  R1 : Option Str
  P2 : Option Str
  R2 : Option Str
  P3 : Option Str
  R3 : Option Str
  P4 : Option Str
  R4 : Option Str

/-- `MODELS`, the fixed choice set for the per-record model draw. -/
def MODELS : List Str :=
  [lit "gpt-4", lit "gpt-3.5-turbo", lit "claude-2", lit "claude-instant"]

/-- `MODEL_COSTS` of `transform_huggingface_dataset.py` (an exact-key dict). -/
def MODEL_COSTS : List (Str × ℚ × ℚ) :=
  [(lit "gpt-4", 3/100, 6/100),
   (lit "gpt-3.5-turbo", 15/10000, 2/1000),
   (lit "claude-2", 8/1000, 24/1000),
   (lit "claude-instant", 16/10000, 55/10000)]

/-- `MODEL_COSTS.get(model, {"input": 0.001, "output": 0.002})`: exact
dictionary lookup with a default, no normalization. -/
def lookupCost (model : Str) : ℚ × ℚ :=
  match MODEL_COSTS.find? (fun e => e.1 == model) with
  | some e => e.2
  | none => (1/1000, 2/1000)

/-- `calculate_cost` of `transform_huggingface_dataset.py`. -/
def calculate_cost (model : Str) (prompt_tokens completion_tokens : Nat) : ℚ :=
  (prompt_tokens : ℚ) / 1000 * (lookupCost model).1
    + (completion_tokens : ℚ) / 1000 * (lookupCost model).2

/-- `generate_synthetic_metadata` of `transform_huggingface_dataset.py`. -/
def generate_synthetic_metadata (user_message assistant_message model : Str)
    (latBase latPerTok : Nat) : Metadata :=
  let prompt_tokens := estimate_tokens user_message
  let completion_tokens := estimate_tokens assistant_message
  { prompt_tokens := prompt_tokens, completion_tokens := completion_tokens,
    total_tokens := prompt_tokens + completion_tokens,
    latency_ms := latBase + completion_tokens * latPerTok,
    cost_usd := round5 (calculate_cost model prompt_tokens completion_tokens) }

/-- The `(P{k}, R{k})` column pair of a record. -/
def pairOf (row : HFRecord) : Nat → Option Str × Option Str
  | 1 => (row.P1, row.R1)
  | 2 => (row.P2, row.R2)
  | 3 => (row.P3, row.R3)
  | 4 => (row.P4, row.R4)
  | _ => (none, none)

/-- Whether the pair `k` of a record passes both guards of the inner loop:
`p_col in row and r_col in row and row[p_col] and row[r_col]`, and then
`if user_message and assistant_message` after stripping. -/
def qualifies (pr : Option Str × Option Str) : Bool :=
  truthyOpt pr.1 && truthyOpt pr.2
    && !(pyStrip (pr.1.getD [])).isEmpty && !(pyStrip (pr.2.getD [])).isEmpty

/-- The inner loop of `main` over the pair indices `turn_num ∈ [1, 2, 3, 4]`;
`cnt` counts the turns already emitted for this record (indexing the
latency draws `rng`). -/
def processPairs (row : HFRecord) (sid uid model : Str) (session_ts : Int)
    (rng : Nat → Nat × Nat) : Nat → List Nat → List TurnData
  | _, [] => []
  | cnt, k :: ks =>
    let pr := pairOf row k
    if qualifies pr then
      let user_message := pyStrip (pr.1.getD [])
      let assistant_message := pyStrip (pr.2.getD [])
      let draws := rng cnt
      let md := generate_synthetic_metadata user_message assistant_message model
        draws.1 draws.2
      mkTurnData sid uid (session_ts + 60 * ((k : Int) - 1)) user_message
          assistant_message model md
        :: processPairs row sid uid model session_ts rng (cnt + 1) ks
    else
      processPairs row sid uid model session_ts rng cnt ks

/-- The qualifying pair indices of a record, in order. -/
def qualifyingIdxs (row : HFRecord) : List Nat :=
  [1, 2, 3, 4].filter fun k => qualifies (pairOf row k)

/-- POSIX seconds of `datetime(2024, 1, 15, 10, 0, 0)` (naive, read as UTC). -/
def epochHF : Int := 1705312800

/-- `f"sess_{idx + 1:05d}"`. -/
def sessionOf (idx : Nat) : Str := lit "sess_" ++ pad5 (idx + 1)

/-- The per-conversation base timestamp: conversations spaced 5 minutes apart. -/
def sessionTs (idx : Nat) : Int := epochHF + 300 * idx

/-- The turns produced from one source record: `uidN` is the record's
`randint(100, 999)` draw and `model` its `random.choice(MODELS)` draw. -/
def processRecord (idx : Nat) (row : HFRecord) (uidN : Nat) (model : Str)
    (rng : Nat → Nat × Nat) : List TurnData :=
  processPairs row (sessionOf idx) (lit "user_" ++ natStr uidN) model
    (sessionTs idx) rng 0 [1, 2, 3, 4]

/-- The concatenated turns of all records from record index `idx` on, with
`cnt` turns already emitted (indexing the latency draw stream). -/
def mainDatas (uidDraw : Nat → Nat) (modelDraw : Nat → Str) (rng : Nat → Nat × Nat) :
    Nat → Nat → List HFRecord → List TurnData
  | _, _, [] => []
  | idx, cnt, row :: rest =>
    let ts := processRecord idx row (uidDraw idx) (modelDraw idx) (fun k => rng (cnt + k))
    ts ++ mainDatas uidDraw modelDraw rng (idx + 1) (cnt + ts.length) rest

/-- The full turn output of `main`, with global `turn_id`s assigned from 1. -/
def mainTurns (records : List HFRecord) (uidDraw : Nat → Nat)
    (modelDraw : Nat → Str) (rng : Nat → Nat × Nat) : List Turn :=
  (mainDatas uidDraw modelDraw rng 0 0 records).enum.map
    fun p => { turn_id := p.1 + 1, data := p.2 }

/-- The token resolution of `main`: `token = os.environ.get("HF_TOKEN")`,
then `if len(sys.argv) > 1: token = sys.argv[1]`.  `args` is `sys.argv[1:]`;
an environment variable that is set but empty is `some []`. -/
def tokenResolved (env : Option Str) (args : List Str) : Option Str :=
  match args with
  | a :: _ => some a
  | [] => env

/-- The startup credential check `if not token` (true when the run proceeds). -/
def tokenOk (env : Option Str) (args : List Str) : Bool :=
  match tokenResolved env args with
  | none => false
  | some t => !t.isEmpty

/-- The whole script run: the credential check happens first, and on failure
the process exits with status 1 (`Except.error`) before the dataset is
loaded or touched. -/
def run (env : Option Str) (args : List Str) (records : List HFRecord)
    (uidDraw : Nat → Nat) (modelDraw : Nat → Str) (rng : Nat → Nat × Nat) :
    Except Unit (List Turn) :=
  if tokenOk env args then
    Except.ok (mainTurns records uidDraw modelDraw rng)
  else
    Except.error ()

/-- The claim's reading of the failure condition: a credential is supplied
via the environment variable or via the process argument (a non-empty value
in either place). -/
def credSuppliedSpec (env : Option Str) (args : List Str) : Bool :=
  (match env with
   | some e => !e.isEmpty
   | none => false) ||
  (match args with
   | a :: _ => !a.isEmpty
   | [] => false)

end HF

namespace Subset

/-!
### The stratified subset sampler: `create_wildchat_subset.py`
-/

/-- A CSV row as the sampler sees it: every field is an opaque string except
`turn_id`, the only one the script parses (`int(x['turn_id'])`) and rewrites. -/
structure RowData where
  session_id : String
  user_id : String
  timestamp : String
  user_message : String
  assistant_message : String
  model : String
  prompt_tokens : String
  completion_tokens : String
  total_tokens : String
  latency_ms : String
  cost_usd : String
deriving DecidableEq, Repr

/-- A sampler row: the parsed `turn_id` together with the untouched fields. -/
structure Row where
  turn_id : Int
  data : RowData
deriving DecidableEq, Repr

/-- `conversations[s]`: the rows of session `s`, in input order
(`defaultdict(list)` appends in reading order). -/
def groupOf (rows : List Row) (s : String) : List Row :=
  rows.filter fun r => r.data.session_id == s

/-- Auxiliary for first-seen-order deduplication. -/
def firstSeenAux (seen : List String) : List String → List String
  | [] => []
  | s :: rest =>
    if s ∈ seen then firstSeenAux seen rest
    else s :: firstSeenAux (s :: seen) rest

/-- The distinct session ids in first-seen order (the iteration order of the
`conversations` dict). -/
def firstSeen (l : List String) : List String := firstSeenAux [] l

/-- The session ids of the input, in first-seen order. -/
def sessionsOf (rows : List Row) : List String :=
  firstSeen (rows.map fun r => r.data.session_id)

/-- The single-turn pool: sessions with exactly one row. -/
def singlePool (rows : List Row) : List String :=
  (sessionsOf rows).filter fun s => (groupOf rows s).length = 1

/-- The multi-turn pool: sessions whose group is not a single row. -/
def multiPool (rows : List Row) : List String :=
  (sessionsOf rows).filter fun s => ¬(groupOf rows s).length = 1

/-- The clamped single-turn target (`target_single = 300`, lowered to the
pool size with a printed warning when the pool is smaller). -/
def targetSingle (rows : List Row) : Nat :=
  if (singlePool rows).length < 300 then (singlePool rows).length else 300

/-- The clamped multi-turn target (`target_multi = 200`, lowered likewise). -/
def targetMulti (rows : List Row) : Nat :=
  if (multiPool rows).length < 200 then (multiPool rows).length else 200

/-- `selected_single + selected_multi` for an abstract `random.sample`
function (deterministic after `random.seed(42)`). -/
def selectedSessions (sample : List String → Nat → List String)
    (rows : List Row) : List String :=
  sample (singlePool rows) (targetSingle rows)
    ++ sample (multiPool rows) (targetMulti rows)

/-- The row-collection loop `for session_id in selected_sessions:
output_rows.extend(conversations[session_id])`, with the set's iteration
order given as the explicit list argument. -/
def collectRows (rows : List Row) : List String → List Row
  | [] => []
  | s :: rest => groupOf rows s ++ collectRows rows rest

/-- The sort key order `int(x['turn_id'])` of `output_rows.sort`. -/
def rowLE (a b : Row) : Prop := a.turn_id ≤ b.turn_id

/-- Strict version of the sort order, used to state uniqueness of the
sorted result. -/
def rowLT (a b : Row) : Prop := a.turn_id < b.turn_id

instance : DecidableRel rowLE := fun a b =>
  inferInstanceAs (Decidable (a.turn_id ≤ b.turn_id))

instance : DecidableRel rowLT := fun a b =>
  inferInstanceAs (Decidable (a.turn_id < b.turn_id))

instance : IsTotal Row rowLE := ⟨fun a b => Int.le_total a.turn_id b.turn_id⟩

instance : IsTrans Row rowLE := ⟨fun _ _ _ h h' => le_trans h h'⟩

instance : IsAntisymm Row rowLT :=
  ⟨fun _ _ h h' => absurd (lt_trans h h') (lt_irrefl _)⟩

/-- `output_rows.sort(key=lambda x: int(x['turn_id']))`: a stable sort by
the parsed turn id (any stable sort computes the same list as Python's). -/
def sortRows (l : List Row) : List Row := l.insertionSort rowLE

/-- `for idx, row in enumerate(output_rows, start=1): row['turn_id'] = str(idx)`. -/
def renumber (l : List Row) : List Row :=
  l.enum.map fun p => { p.2 with turn_id := (p.1 : Int) + 1 }

/-- The output table of the sampler, given the iteration order of the
selected-session set. -/
def createSubset (rows : List Row) (selOrder : List String) : List Row :=
  renumber (sortRows (collectRows rows selOrder))

/-- The parsed turn ids of a row list. -/
def rowKeys (l : List Row) : List Int := l.map Row.turn_id

end Subset

/-! ### Reference formulations used to state the claims -/

/-- A message qualifies for Flattener A's walk when its trimmed content is
non-empty and its role is `user` or `assistant`; all other messages leave
the walk's state unchanged. -/
def qualifyingMsg (m : WC.Msg) : Bool :=
  !(pyStrip m.content).isEmpty
    && (m.role == lit "user" || m.role == lit "assistant")

/-- The qualifying messages of a list, in order. -/
def relevantMsgs (msgs : List WC.Msg) : List WC.Msg :=
  msgs.filter qualifyingMsg

/-- The reference pairing of Flattener A, stated without the walk's state:
each qualifying assistant message immediately preceded (among qualifying
messages) by a user message yields the pair of their stripped contents. -/
def chainPairs : List WC.Msg → List (Str × Str)
  | a :: b :: rest =>
    (if a.role = lit "user" ∧ b.role = lit "assistant" then
      [(pyStrip a.content, pyStrip b.content)]
    else []) ++ chainPairs (b :: rest)
  | _ => []

/-- The (user, assistant) message pairs of a turn list. -/
def turnPairs (l : List TurnData) : List (Str × Str) :=
  l.map fun d => (d.user_message, d.assistant_message)

/-- A pending user message rendered back as a leading user message, for
relating the walk's state to the stateless reference pairing. -/
def pendingMsgs : Option Str → List WC.Msg → List WC.Msg
  | some u, rel => ⟨lit "user", u⟩ :: rel
  | none, rel => rel

/-! ### Concrete inputs used to witness the hypotheses of the theorems -/

/-- A sampler row whose opaque fields are fixed and whose session id is `s`. -/
def sampleRowData (s : String) : Subset.RowData :=
  ⟨s, "u1", "2024-01-01T00:00:00Z", "hi", "hello", "gpt-4", "1", "1", "2", "1200", "0.00005"⟩

/-- A three-row input table: one single-turn session `a`, one two-turn session `b`. -/
def wRows : List Subset.Row :=
  [⟨1, sampleRowData "a"⟩, ⟨2, sampleRowData "b"⟩, ⟨3, sampleRowData "b"⟩]

/-- A concrete deterministic stand-in for the seeded `random.sample`. -/
def wSample : List String → Nat → List String := fun pool k => pool.take k

/-- A concrete random stream for the latency draws. -/
def wRng : Nat → Nat × Nat := fun _ => (1500, 100)

/-- The message list `[user:"a", user:"b", assistant:"c"]` of the claim. -/
def exMsgs1 : List WC.Msg :=
  [⟨lit "user", lit "a"⟩, ⟨lit "user", lit "b"⟩, ⟨lit "assistant", lit "c"⟩]

/-- The message list `[assistant:"x", user:"a", assistant:"b"]` of the claim. -/
def exMsgs2 : List WC.Msg :=
  [⟨lit "assistant", lit "x"⟩, ⟨lit "user", lit "a"⟩, ⟨lit "assistant", lit "b"⟩]

/-- Two wildchat records with distinct explicit conversation hashes. -/
def wWCRecords : List WC.WCRecord :=
  [{ conversation_hash := some (lit "hashA"), hashed_ip := some (lit "ipA"),
     model := some (lit "gpt-4"), timestamp := some 1700000000,
     messages := exMsgs1 },
   { conversation_hash := some (lit "hashB"), hashed_ip := some (lit "ipB"),
     model := some (lit "claude-2"), timestamp := none,
     messages := exMsgs2 }]

/-- A huggingface record with a single populated pair: `P1` of 4 characters
(1 estimated prompt token) and `R1` of 8 characters (2 completion tokens). -/
def hfRec : HF.HFRecord :=
  { P1 := some (lit "aaaa"), R1 := some (lit "bbbbbbbb"),
    P2 := none, R2 := none, P3 := none, R3 := none, P4 := none, R4 := none }

/-! ### Basic facts about the string primitives -/

theorem dropWhile_dropWhile {α : Type} (p : α → Bool) (l : List α) :
    (l.dropWhile p).dropWhile p = l.dropWhile p := by
  induction l with
  | nil => rfl
  | cons a t ih =>
    by_cases h : p a = true
    · simp [List.dropWhile_cons, h, ih]
    · simp [List.dropWhile_cons, h]

theorem dropWhile_eq_self_of_append {α : Type} {p : α → Bool} {t x : List α}
    (h : (t ++ x).dropWhile p = t ++ x) : t.dropWhile p = t := by
  cases t with
  | nil => rfl
  | cons a t' =>
    rw [List.cons_append, List.dropWhile_cons] at h
    by_cases ha : p a = true
    · exfalso
      rw [if_pos ha] at h
      have hlen := congrArg List.length h
      have hle : (List.dropWhile p (t' ++ x)).length ≤ (t' ++ x).length :=
        (List.dropWhile_sublist p).length_le
      simp only [List.length_cons, List.length_append] at hlen hle
      omega
    · rw [List.dropWhile_cons, if_neg ha]

/-- `str.strip()` is idempotent. -/
theorem pyStrip_idem (s : Str) : pyStrip (pyStrip s) = pyStrip s := by
  unfold pyStrip
  set u := s.dropWhile pyIsSpace with hu
  set v := u.reverse.dropWhile pyIsSpace with hv
  have huu : u.dropWhile pyIsSpace = u := by
    rw [hu]; exact dropWhile_dropWhile _ _
  have hvv : v.dropWhile pyIsSpace = v := by
    rw [hv]; exact dropWhile_dropWhile _ _
  have hsplit : u.reverse.takeWhile pyIsSpace ++ v = u.reverse := by
    rw [hv]; exact List.takeWhile_append_dropWhile _ _
  have huform : u = v.reverse ++ (u.reverse.takeWhile pyIsSpace).reverse := by
    have := congrArg List.reverse hsplit
    rw [List.reverse_append, List.reverse_reverse] at this
    exact this.symm
  have hvrev : v.reverse.dropWhile pyIsSpace = v.reverse :=
    dropWhile_eq_self_of_append (huform ▸ huu)
  rw [hvrev, List.reverse_reverse, hvv]

/-- A string with non-empty strip is itself non-empty. -/
theorem ne_nil_of_pyStrip_ne_nil {s : Str} (h : pyStrip s ≠ []) : s ≠ [] := by
  intro hs; exact h (by simp [hs, pyStrip])

theorem headI_mem_of_ne_nil {α : Type} [Inhabited α] {l : List α} (h : l ≠ []) :
    l.headI ∈ l := by
  cases l with
  | nil => exact absurd rfl h
  | cons a rest => simp [List.headI]

/-! ### Lemmas about the sampler -/

namespace Subset

theorem filter_or_perm {α : Type} {p q : α → Bool}
    (hpq : ∀ a, p a = true → q a = true → False) (l : List α) :
    (l.filter p ++ l.filter q).Perm (l.filter fun a => p a || q a) := by
  induction l with
  | nil => simp
  | cons a t ih =>
    by_cases hp : p a = true
    · have hq : ¬q a = true := fun h => hpq a hp h
      simp only [List.filter_cons, hp, if_pos, hq, if_neg, Bool.or_eq_true, true_or,
        if_true, List.cons_append]
      exact ih.cons a
    · by_cases hq : q a = true
      · simp only [List.filter_cons, hp, if_neg, hq, if_pos, Bool.or_eq_true, or_true,
          if_true, not_false_iff]
        exact List.perm_middle.trans (ih.cons a)
      · have : (p a || q a) = false := by
          simp [Bool.or_eq_true, hp, hq]
        simp only [List.filter_cons, hp, hq, if_neg, this, Bool.false_eq_true,
          not_false_iff]
        exact ih

/-- Collecting the groups of a duplicate-free session list is, up to
permutation, filtering the input to those sessions. -/
theorem collect_perm_filter (rows : List Row) :
    ∀ order : List String, order.Nodup →
      (collectRows rows order).Perm
        (rows.filter fun r => decide (r.data.session_id ∈ order)) := by
  intro order
  induction order with
  | nil => intro _; simp [collectRows]
  | cons s rest ih =>
    intro hnd
    rw [List.nodup_cons] at hnd
    have h1 : (groupOf rows s ++ collectRows rows rest).Perm
        (groupOf rows s ++ rows.filter fun r => decide (r.data.session_id ∈ rest)) :=
      List.Perm.append_left _ (ih hnd.2)
    have hdis : ∀ r : Row, (r.data.session_id == s) = true →
        decide (r.data.session_id ∈ rest) = true → False := by
      intro r h h'
      rw [beq_iff_eq] at h
      rw [decide_eq_true_iff] at h'
      exact hnd.1 (h ▸ h')
    have h2 := filter_or_perm hdis rows
    have h3 : (rows.filter fun r =>
        (r.data.session_id == s) || decide (r.data.session_id ∈ rest)) =
        rows.filter fun r => decide (r.data.session_id ∈ s :: rest) := by
      apply List.filter_congr
      intro r _
      rw [Bool.eq_iff_iff]
      simp [List.mem_cons, beq_iff_eq]
    rw [collectRows]
    exact h1.trans ((h2.trans (by rw [h3])))

theorem rowKeys_nodup_of_perm {l₁ l₂ : List Row} (h : l₁.Perm l₂)
    (hk : (rowKeys l₁).Nodup) : (rowKeys l₂).Nodup :=
  hk.perm (h.map Row.turn_id)

theorem rowKeys_nodup_of_sublist {l₁ l₂ : List Row} (h : l₁.Sublist l₂)
    (hk : (rowKeys l₂).Nodup) : (rowKeys l₁).Nodup :=
  (h.map Row.turn_id).nodup hk

theorem sortRows_perm (l : List Row) : (sortRows l).Perm l :=
  List.perm_insertionSort rowLE l

theorem sortRows_sorted (l : List Row) : List.Sorted rowLE (sortRows l) :=
  List.sorted_insertionSort rowLE l

/-- With duplicate-free keys, the sorted list is sorted strictly. -/
theorem sortRows_sorted_strict (l : List Row) (hk : (rowKeys l).Nodup) :
    List.Sorted rowLT (sortRows l) := by
  have hk' : (rowKeys (sortRows l)).Nodup :=
    rowKeys_nodup_of_perm (sortRows_perm l).symm hk
  have hne : List.Pairwise (fun a b : Row => a.turn_id ≠ b.turn_id) (sortRows l) :=
    List.pairwise_map.mp hk'
  exact ((sortRows_sorted l).and hne).imp fun h => lt_of_le_of_ne h.1 h.2

/-- Two permutations of one list with duplicate-free keys sort identically. -/
theorem sortRows_eq_of_perm {l₁ l₂ : List Row} (h : l₁.Perm l₂)
    (hk : (rowKeys l₁).Nodup) : sortRows l₁ = sortRows l₂ := by
  have hperm : (sortRows l₁).Perm (sortRows l₂) :=
    (sortRows_perm l₁).trans (h.trans (sortRows_perm l₂).symm)
  exact List.eq_of_perm_of_sorted hperm (sortRows_sorted_strict l₁ hk)
    (sortRows_sorted_strict l₂ (rowKeys_nodup_of_perm h hk))

theorem mem_firstSeenAux {a : String} :
    ∀ (l seen : List String), a ∈ firstSeenAux seen l ↔ a ∈ l ∧ a ∉ seen := by
  intro l
  induction l with
  | nil => intro seen; simp [firstSeenAux]
  | cons s rest ih =>
    intro seen
    rw [firstSeenAux]
    by_cases hs : s ∈ seen
    · rw [if_pos hs, ih]
      constructor
      · rintro ⟨h1, h2⟩
        exact ⟨List.mem_cons_of_mem _ h1, h2⟩
      · rintro ⟨h1, h2⟩
        rcases List.mem_cons.mp h1 with rfl | h1
        · exact absurd hs h2
        · exact ⟨h1, h2⟩
    · rw [if_neg hs]
      constructor
      · intro h
        rcases List.mem_cons.mp h with rfl | h
        · exact ⟨List.mem_cons_self _ _, hs⟩
        · rw [ih] at h
          refine ⟨List.mem_cons_of_mem _ h.1, fun hseen => h.2 ?_⟩
          exact List.mem_cons_of_mem _ hseen
      · rintro ⟨h1, h2⟩
        rcases List.mem_cons.mp h1 with rfl | h1
        · exact List.mem_cons_self _ _
        · by_cases has : a = s
          · subst has; exact List.mem_cons_self _ _
          · refine List.mem_cons_of_mem _ ((ih _).mpr ⟨h1, ?_⟩)
            intro h
            rcases List.mem_cons.mp h with h | h
            · exact has h
            · exact h2 h

theorem mem_firstSeen {a : String} {l : List String} :
    a ∈ firstSeen l ↔ a ∈ l := by
  rw [firstSeen, mem_firstSeenAux]
  simp

/-- Every session in a pool has at least one row in the input. -/
theorem exists_row_of_mem_sessionsOf {rows : List Row} {s : String}
    (h : s ∈ sessionsOf rows) : ∃ r ∈ rows, r.data.session_id = s := by
  rw [sessionsOf, mem_firstSeen] at h
  rcases List.mem_map.mp h with ⟨r, hr, hs⟩
  exact ⟨r, hr, hs⟩

/-- The two pools are disjoint. -/
theorem pools_disjoint (rows : List Row) :
    List.Disjoint (singlePool rows) (multiPool rows) := by
  intro s h1 h2
  rw [singlePool, List.mem_filter] at h1
  rw [multiPool, List.mem_filter] at h2
  rw [decide_eq_true_iff] at h1 h2
  exact h2.2 h1.2

theorem mem_pool_mem_sessions {rows : List Row} {s : String} :
    (s ∈ singlePool rows → s ∈ sessionsOf rows)
      ∧ (s ∈ multiPool rows → s ∈ sessionsOf rows) := by
  constructor
  · intro h; exact (List.mem_filter.mp h).1
  · intro h; exact (List.mem_filter.mp h).1

theorem selectedSessions_nodup {sample : List String → Nat → List String}
    {rows : List Row}
    (hsn : (sample (singlePool rows) (targetSingle rows)).Nodup)
    (hss : sample (singlePool rows) (targetSingle rows) ⊆ singlePool rows)
    (hmn : (sample (multiPool rows) (targetMulti rows)).Nodup)
    (hms : sample (multiPool rows) (targetMulti rows) ⊆ multiPool rows) :
    (selectedSessions sample rows).Nodup := by
  rw [selectedSessions, List.nodup_append]
  exact ⟨hsn, hmn, fun a ha hb => pools_disjoint rows (hss ha) (hms hb)⟩

theorem renumber_map_data (l : List Row) :
    (renumber l).map Row.data = l.map Row.data := by
  rw [renumber, List.map_map]
  have h : (Row.data ∘ fun p : Nat × Row => { p.2 with turn_id := (p.1 : Int) + 1 })
      = Row.data ∘ Prod.snd := rfl
  rw [h, ← List.map_map, List.enum_map_snd]

theorem renumber_length (l : List Row) : (renumber l).length = l.length := by
  rw [renumber, List.length_map, List.enum_length]

theorem renumber_turn_id (l : List Row) (i : Nat) (h : i < (renumber l).length) :
    ((renumber l).get ⟨i, h⟩).turn_id = (i : Int) + 1 := by
  rw [List.get_eq_getElem]
  simp only [renumber, List.getElem_map, List.getElem_enum]

end Subset

/-! ### Lemmas about Flattener A's message walk -/

namespace WC

/-- Every turn emitted by the walk carries the record's identifiers, has
token counts, total and cost computed from its own messages by the synthetic
metadata generator, has stripped non-empty messages on both sides, and a
timestamp `base + 30 * k` for some `k` at least the current `turn_num`. -/
theorem extractAux_mem {sid uid model : Str} {base : Int} {rng : Nat → Nat × Nat} :
    ∀ {msgs : List Msg} (pending : Option Str) (turn_num : Nat),
      (∀ u, pending = some u → pyStrip u = u) →
      ∀ {d : TurnData}, d ∈ extractAux sid uid model base rng pending turn_num msgs →
        d.session_id = sid ∧ d.user_id = uid ∧ d.model = model
          ∧ d.prompt_tokens = estimate_tokens d.user_message
          ∧ d.completion_tokens = estimate_tokens d.assistant_message
          ∧ d.total_tokens = d.prompt_tokens + d.completion_tokens
          ∧ d.cost_usd = round5 (calculate_cost model d.prompt_tokens d.completion_tokens)
          ∧ pyStrip d.user_message = d.user_message ∧ d.user_message ≠ []
          ∧ pyStrip d.assistant_message = d.assistant_message ∧ d.assistant_message ≠ []
          ∧ ∃ k : Nat, turn_num ≤ k ∧ d.timestamp = base + 30 * k := by
  intro msgs
  induction msgs with
  | nil => intro pending tn hp d hd; simp [extractAux] at hd
  | cons m rest ih =>
    intro pending tn hp d hd
    rw [extractAux] at hd
    by_cases hc : pyStrip m.content = []
    · rw [if_pos hc] at hd
      exact ih pending tn hp hd
    · rw [if_neg hc] at hd
      by_cases hu : m.role = lit "user"
      · rw [if_pos hu] at hd
        refine ih (some (pyStrip m.content)) tn ?_ hd
        intro u hu'
        injection hu' with h
        rw [← h]
        exact pyStrip_idem _
      · rw [if_neg hu] at hd
        by_cases ha : m.role = lit "assistant" ∧ truthyOpt pending = true
        · obtain ⟨u, rfl⟩ : ∃ u, pending = some u := by
            cases pending with
            | none => simp [truthyOpt] at ha
            | some u => exact ⟨u, rfl⟩
          rw [if_pos ha] at hd
          rcases List.mem_cons.mp hd with heq | hd
          · subst heq
            have hstr : pyStrip u = u := hp u rfl
            have hne : u ≠ [] := by
              intro h
              rw [h] at ha
              simp [truthyOpt] at ha
            exact ⟨rfl, rfl, rfl, rfl, rfl, rfl, rfl, hstr, hne,
              pyStrip_idem _, hc, tn, le_refl _, rfl⟩
          · obtain ⟨h1, h2, h3, h4, h5, h6, h7, h8, h9, h10, h11, k, hk, hts⟩ :=
              ih none (tn + 1) (fun _ h => nomatch h) hd
            exact ⟨h1, h2, h3, h4, h5, h6, h7, h8, h9, h10, h11, k, by omega, hts⟩
        · rw [if_neg ha] at hd
          exact ih pending tn hp hd

/-- The timestamps of the walk's output, in order: `base + 30 * (turn_num + p)`
for the `p`-th emitted turn. -/
theorem extractAux_timestamps {sid uid model : Str} {base : Int} {rng : Nat → Nat × Nat} :
    ∀ (msgs : List Msg) (pending : Option Str) (turn_num : Nat),
      (extractAux sid uid model base rng pending turn_num msgs).map TurnData.timestamp
        = (List.range (extractAux sid uid model base rng pending turn_num msgs).length).map
            (fun p : Nat => base + 30 * ((turn_num : Int) + (p : Int))) := by
  intro msgs
  induction msgs with
  | nil => intro pending tn; simp [extractAux]
  | cons m rest ih =>
    intro pending tn
    rw [extractAux]
    by_cases hc : pyStrip m.content = []
    · rw [if_pos hc]; exact ih pending tn
    · rw [if_neg hc]
      by_cases hu : m.role = lit "user"
      · rw [if_pos hu]; exact ih _ tn
      · rw [if_neg hu]
        by_cases ha : m.role = lit "assistant" ∧ truthyOpt pending = true
        · rw [if_pos ha]
          rw [List.map_cons, ih none (tn + 1)]
          rw [List.length_cons, List.range_succ_eq_map, List.map_cons, List.map_map]
          rw [List.cons_eq_cons]
          constructor
          · show (mkTurnData sid uid (base + 30 * (tn : Int)) (pending.getD [])
                (pyStrip m.content) model _).timestamp
              = base + 30 * ((tn : Int) + (((0 : Nat) : Int)))
            show base + 30 * (tn : Int) = base + 30 * ((tn : Int) + (((0 : Nat) : Int)))
            push_cast; ring
          · apply List.map_congr_left
            intro p _
            show base + 30 * (((tn + 1 : Nat) : Int) + (p : Int))
                = base + 30 * ((tn : Int) + ((p.succ : Nat) : Int))
            push_cast; ring
        · rw [if_neg ha]; exact ih pending tn

/-- Within one record, emitted timestamps strictly increase. -/
theorem processRecord_pairwise_ts (idx : Nat) (row : WCRecord) (rng : Nat → Nat × Nat) :
    List.Pairwise (fun a b : TurnData => a.timestamp < b.timestamp)
      (processRecord idx row rng) := by
  have hshape : (extractAux (sessionOf idx row) (userOf idx row) (modelOf row)
        (baseOf idx row) rng none 1 row.messages).map TurnData.timestamp
      = (List.range (extractAux (sessionOf idx row) (userOf idx row) (modelOf row)
            (baseOf idx row) rng none 1 row.messages).length).map
          (fun p : Nat => baseOf idx row + 30 * ((1 : Int) + (p : Int))) :=
    extractAux_timestamps row.messages none 1
  have hmono : List.Pairwise (fun a b : Int => a < b)
      ((List.range (extractAux (sessionOf idx row) (userOf idx row) (modelOf row)
          (baseOf idx row) rng none 1 row.messages).length).map
        (fun p : Nat => baseOf idx row + 30 * ((1 : Int) + (p : Int)))) := by
    refine List.pairwise_map.mpr ((List.pairwise_lt_range _).imp ?_)
    intro a b hab
    have hab' : (a : Int) < (b : Int) := by exact_mod_cast hab
    omega
  rw [processRecord, extract_turns_from_messages]
  have hres := hshape ▸ hmono
  exact List.pairwise_map.mp hres

/-- Every turn of one record carries that record's session id. -/
theorem processRecord_session {idx : Nat} {row : WCRecord} {rng : Nat → Nat × Nat}
    {d : TurnData} (hd : d ∈ processRecord idx row rng) :
    d.session_id = sessionOf idx row :=
  (extractAux_mem none 1 (fun _ h => nomatch h) hd).1

/-- Membership in the concatenated output comes from some single record. -/
theorem mainDatas_mem {rng : Nat → Nat × Nat} :
    ∀ {recs : List WCRecord} {idx cnt : Nat} {d : TurnData},
      d ∈ mainDatas rng idx cnt recs →
      ∃ i row rng', d ∈ processRecord i row rng' := by
  intro recs
  induction recs with
  | nil => intro idx cnt d hd; simp [mainDatas] at hd
  | cons row rest ih =>
    intro idx cnt d hd
    rw [mainDatas] at hd
    rcases List.mem_append.mp hd with h | h
    · exact ⟨idx, row, _, h⟩
    · exact ih h

/-- The session of every turn of the concatenated output appears in the
resolved session list of the remaining records. -/
theorem mainDatas_session {rng : Nat → Nat × Nat} :
    ∀ {recs : List WCRecord} {idx cnt : Nat} {d : TurnData},
      d ∈ mainDatas rng idx cnt recs →
      d.session_id ∈ resolvedSessionsFrom idx recs := by
  intro recs
  induction recs with
  | nil => intro idx cnt d hd; simp [mainDatas] at hd
  | cons row rest ih =>
    intro idx cnt d hd
    rw [mainDatas] at hd
    rw [resolvedSessionsFrom]
    rcases List.mem_append.mp hd with h | h
    · exact List.mem_cons.mpr (Or.inl (processRecord_session h))
    · exact List.mem_cons.mpr (Or.inr (ih h))

/-- With pairwise distinct resolved session ids, timestamps strictly
increase inside every session of the concatenated output. -/
theorem mainDatas_pairwise {rng : Nat → Nat × Nat} :
    ∀ {recs : List WCRecord} {idx cnt : Nat},
      (resolvedSessionsFrom idx recs).Nodup →
      List.Pairwise (fun a b : TurnData =>
          a.session_id = b.session_id → a.timestamp < b.timestamp)
        (mainDatas rng idx cnt recs) := by
  intro recs
  induction recs with
  | nil => intro idx cnt _; simp [mainDatas]
  | cons row rest ih =>
    intro idx cnt hnd
    rw [resolvedSessionsFrom, List.nodup_cons] at hnd
    rw [mainDatas, List.pairwise_append]
    refine ⟨?_, ih hnd.2, ?_⟩
    · refine List.Pairwise.imp ?_ (processRecord_pairwise_ts idx row _)
      exact fun h _ => h
    intro a ha b hb heq
    exfalso
    have h1 : a.session_id = sessionOf idx row := processRecord_session ha
    have h2 : b.session_id ∈ resolvedSessionsFrom (idx + 1) rest := mainDatas_session hb
    rw [← heq, h1] at h2
    exact hnd.1 h2

/-- Lifting a pairwise property of the turn-data list to the enumerated
turn list. -/
theorem pairwise_turns_of_datas {R : TurnData → TurnData → Prop} {l : List TurnData}
    (h : List.Pairwise R l) :
    List.Pairwise (fun a b : Turn => R a.data b.data)
      (l.enum.map fun p => ({ turn_id := p.1 + 1, data := p.2 } : Turn)) := by
  have h1 : List.Pairwise (fun p q : Nat × TurnData => R p.2 q.2) l.enum := by
    have h' := h
    rw [← List.enum_map_snd l] at h'
    exact List.pairwise_map.mp h'
  exact List.pairwise_map.mpr (h1.imp fun hab => hab)

/-- Turn membership in `main` reduces to data membership in `mainDatas`. -/
theorem mem_main {records : List WCRecord} {rng : Nat → Nat × Nat} {t : Turn}
    (ht : t ∈ main records rng) : t.data ∈ mainDatas rng 0 0 records := by
  rw [main] at ht
  rcases List.mem_map.mp ht with ⟨p, hp, rfl⟩
  have := List.mem_map_of_mem Prod.snd hp
  rw [List.enum_map_snd] at this
  exact this

end WC

/-! ### Decimal rendering is injective -/

theorem digitVal_digitChar : ∀ m < 10, digitVal (digitChar m) = m := by decide

theorem parseNat_from (acc : Nat) :
    ∀ n : Nat, (natStr n).foldl (fun a c => a * 10 + digitVal c) acc
      = acc * 10 ^ (natStr n).length + n := by
  intro n
  induction n using natStr.induct generalizing acc with
  | case1 n h =>
    rw [natStr, dif_pos h]
    simp [List.foldl, digitVal_digitChar n h]
  | case2 n h ih =>
    rw [natStr, dif_neg h]
    rw [List.foldl_append, ih acc]
    simp only [List.foldl, List.length_append, List.length_cons, List.length_nil]
    rw [digitVal_digitChar (n % 10) (Nat.mod_lt n (by omega))]
    have hdm := Nat.div_add_mod n 10
    rw [pow_succ]
    ring_nf
    omega

theorem parseNat_natStr (n : Nat) : parseNat (natStr n) = n := by
  have h := parseNat_from 0 n
  rw [parseNat, h]
  omega

theorem foldl_replicate_zero (k : Nat) :
    (List.replicate k '0').foldl (fun a c => a * 10 + digitVal c) 0 = 0 := by
  induction k with
  | zero => rfl
  | succ k ih =>
    rw [List.replicate_succ, List.foldl_cons]
    have h0 : digitVal '0' = 0 := by decide
    rw [h0]
    simpa using ih

theorem parseNat_pad5 (n : Nat) : parseNat (pad5 n) = n := by
  rw [pad5, parseNat, List.foldl_append, foldl_replicate_zero]
  exact parseNat_natStr n

theorem HF_sessionOf_inj {i j : Nat} (h : HF.sessionOf i = HF.sessionOf j) : i = j := by
  rw [HF.sessionOf, HF.sessionOf] at h
  have h2 : pad5 (i + 1) = pad5 (j + 1) := by
    have hdrop := congrArg (List.drop (lit "sess_").length) h
    rwa [List.drop_left, List.drop_left] at hdrop
  have h3 := congrArg parseNat h2
  rw [parseNat_pad5, parseNat_pad5] at h3
  omega

/-! ### Lemmas about Flattener B's pair loop -/

namespace HF

/-- Every turn emitted by the pair loop carries the loop's identifiers and
has token counts, total, cost and messages satisfying the shared metadata
invariants; its timestamp comes from one of the processed pair indices. -/
theorem processPairs_mem {row : HFRecord} {sid uid model : Str} {sts : Int}
    {rng : Nat → Nat × Nat} :
    ∀ (ks : List Nat) (cnt : Nat) {d : TurnData},
      d ∈ processPairs row sid uid model sts rng cnt ks →
      d.session_id = sid ∧ d.user_id = uid ∧ d.model = model
        ∧ d.prompt_tokens = estimate_tokens d.user_message
        ∧ d.completion_tokens = estimate_tokens d.assistant_message
        ∧ d.total_tokens = d.prompt_tokens + d.completion_tokens
        ∧ d.cost_usd = round5 (calculate_cost model d.prompt_tokens d.completion_tokens)
        ∧ pyStrip d.user_message = d.user_message ∧ d.user_message ≠ []
        ∧ pyStrip d.assistant_message = d.assistant_message ∧ d.assistant_message ≠ []
        ∧ ∃ k ∈ ks, d.timestamp = sts + 60 * ((k : Int) - 1) := by
  intro ks
  induction ks with
  | nil => intro cnt d hd; simp [processPairs] at hd
  | cons k ks ih =>
    intro cnt d hd
    rw [processPairs] at hd
    by_cases hq : qualifies (pairOf row k) = true
    · rw [if_pos hq] at hd
      rcases List.mem_cons.mp hd with heq | hd
      · subst heq
        rw [qualifies, Bool.and_eq_true, Bool.and_eq_true, Bool.and_eq_true] at hq
        have hun : pyStrip ((pairOf row k).1.getD []) ≠ [] := by
          have := hq.1.2
          simpa [List.isEmpty_iff] using this
        have han : pyStrip ((pairOf row k).2.getD []) ≠ [] := by
          have := hq.2
          simpa [List.isEmpty_iff] using this
        exact ⟨rfl, rfl, rfl, rfl, rfl, rfl, rfl, pyStrip_idem _, hun,
          pyStrip_idem _, han, k, List.mem_cons_self _ _, rfl⟩
      · obtain ⟨h1, h2, h3, h4, h5, h6, h7, h8, h9, h10, h11, k', hk', hts⟩ :=
          ih (cnt + 1) hd
        exact ⟨h1, h2, h3, h4, h5, h6, h7, h8, h9, h10, h11, k',
          List.mem_cons_of_mem _ hk', hts⟩
    · rw [if_neg hq] at hd
      obtain ⟨h1, h2, h3, h4, h5, h6, h7, h8, h9, h10, h11, k', hk', hts⟩ :=
        ih cnt hd
      exact ⟨h1, h2, h3, h4, h5, h6, h7, h8, h9, h10, h11, k',
        List.mem_cons_of_mem _ hk', hts⟩

/-- The sessions and timestamps of the pair loop's output, in order: the
qualifying pair indices mapped to one minute per index past the session
base. -/
theorem processPairs_shape {row : HFRecord} {sid uid model : Str} {sts : Int}
    {rng : Nat → Nat × Nat} :
    ∀ (ks : List Nat) (cnt : Nat),
      (processPairs row sid uid model sts rng cnt ks).map
          (fun d => (d.session_id, d.timestamp))
        = (ks.filter fun k => qualifies (pairOf row k)).map
            (fun k : Nat => (sid, sts + 60 * ((k : Int) - 1))) := by
  intro ks
  induction ks with
  | nil => intro cnt; simp [processPairs]
  | cons k ks ih =>
    intro cnt
    rw [processPairs, List.filter_cons]
    by_cases hq : qualifies (pairOf row k) = true
    · rw [if_pos hq, if_pos hq, List.map_cons, List.map_cons, ih (cnt + 1)]
      rfl
    · rw [if_neg hq, if_neg hq, ih cnt]

/-- Within one record, emitted timestamps strictly increase. -/
theorem processRecordB_pairwise_ts (idx : Nat) (row : HFRecord) (uidN : Nat)
    (model : Str) (rng : Nat → Nat × Nat) :
    List.Pairwise (fun a b : TurnData => a.timestamp < b.timestamp)
      (processRecord idx row uidN model rng) := by
  have hshape : (processPairs row (sessionOf idx) (lit "user_" ++ natStr uidN) model
        (sessionTs idx) rng 0 [1, 2, 3, 4]).map (fun d => (d.session_id, d.timestamp))
      = (([1, 2, 3, 4] : List Nat).filter fun k => qualifies (pairOf row k)).map
          (fun k : Nat => (sessionOf idx, sessionTs idx + 60 * ((k : Int) - 1))) :=
    processPairs_shape [1, 2, 3, 4] 0
  have hks : List.Pairwise (fun a b : Nat => a < b)
      (([1, 2, 3, 4] : List Nat).filter fun k => qualifies (pairOf row k)) :=
    List.Pairwise.sublist (List.filter_sublist _) (by decide)
  have hmono : List.Pairwise (fun a b : Str × Int => a.2 < b.2)
      ((([1, 2, 3, 4] : List Nat).filter fun k => qualifies (pairOf row k)).map
        (fun k : Nat => (sessionOf idx, sessionTs idx + 60 * ((k : Int) - 1)))) := by
    refine List.pairwise_map.mpr (hks.imp ?_)
    intro a b hab
    have hab' : (a : Int) < (b : Int) := by exact_mod_cast hab
    omega
  rw [processRecord]
  have hres := hshape ▸ hmono
  have := List.pairwise_map.mp hres
  exact this.imp fun h => h

/-- Every turn of one record carries that record's session id. -/
theorem processRecordB_session {idx : Nat} {row : HFRecord} {uidN : Nat}
    {model : Str} {rng : Nat → Nat × Nat} {d : TurnData}
    (hd : d ∈ processRecord idx row uidN model rng) :
    d.session_id = sessionOf idx :=
  (processPairs_mem [1, 2, 3, 4] 0 hd).1

/-- Membership in the concatenated output comes from some single record. -/
theorem mainDatasB_mem {uidDraw : Nat → Nat} {modelDraw : Nat → Str}
    {rng : Nat → Nat × Nat} :
    ∀ {recs : List HFRecord} {idx cnt : Nat} {d : TurnData},
      d ∈ mainDatas uidDraw modelDraw rng idx cnt recs →
      ∃ i row uidN model rng', d ∈ processRecord i row uidN model rng' := by
  intro recs
  induction recs with
  | nil => intro idx cnt d hd; simp [mainDatas] at hd
  | cons row rest ih =>
    intro idx cnt d hd
    rw [mainDatas] at hd
    rcases List.mem_append.mp hd with h | h
    · exact ⟨idx, row, _, _, _, h⟩
    · exact ih h

/-- Every turn of the concatenated output from index `idx` on belongs to
the session of some record index at least `idx`. -/
theorem mainDatasB_session {uidDraw : Nat → Nat} {modelDraw : Nat → Str}
    {rng : Nat → Nat × Nat} :
    ∀ {recs : List HFRecord} {idx cnt : Nat} {d : TurnData},
      d ∈ mainDatas uidDraw modelDraw rng idx cnt recs →
      ∃ i : Nat, idx ≤ i ∧ d.session_id = sessionOf i := by
  intro recs
  induction recs with
  | nil => intro idx cnt d hd; simp [mainDatas] at hd
  | cons row rest ih =>
    intro idx cnt d hd
    rw [mainDatas] at hd
    rcases List.mem_append.mp hd with h | h
    · exact ⟨idx, le_refl _, processRecordB_session h⟩
    · obtain ⟨i, hi, hs⟩ := ih h
      exact ⟨i, by omega, hs⟩

/-- Timestamps strictly increase inside every session of the concatenated
output (sessions of distinct records are distinct by construction). -/
theorem mainDatasB_pairwise {uidDraw : Nat → Nat} {modelDraw : Nat → Str}
    {rng : Nat → Nat × Nat} :
    ∀ {recs : List HFRecord} {idx cnt : Nat},
      List.Pairwise (fun a b : TurnData =>
          a.session_id = b.session_id → a.timestamp < b.timestamp)
        (mainDatas uidDraw modelDraw rng idx cnt recs) := by
  intro recs
  induction recs with
  | nil => intro idx cnt; simp [mainDatas]
  | cons row rest ih =>
    intro idx cnt
    rw [mainDatas, List.pairwise_append]
    refine ⟨?_, ih, ?_⟩
    · refine List.Pairwise.imp ?_ (processRecordB_pairwise_ts idx row _ _ _)
      exact fun h _ => h
    intro a ha b hb heq
    exfalso
    have h1 : a.session_id = sessionOf idx := processRecordB_session ha
    obtain ⟨i, hi, h2⟩ := mainDatasB_session hb
    rw [← heq, h1] at h2
    have := HF_sessionOf_inj h2
    omega

/-- Turn membership in `mainTurns` reduces to data membership in `mainDatas`. -/
theorem mem_mainTurns {records : List HFRecord} {uidDraw : Nat → Nat}
    {modelDraw : Nat → Str} {rng : Nat → Nat × Nat} {t : Turn}
    (ht : t ∈ mainTurns records uidDraw modelDraw rng) :
    t.data ∈ mainDatas uidDraw modelDraw rng 0 0 records := by
  rw [mainTurns] at ht
  rcases List.mem_map.mp ht with ⟨p, hp, rfl⟩
  have := List.mem_map_of_mem Prod.snd hp
  rw [List.enum_map_snd] at this
  exact this

end HF

/-! ### Lemmas relating the walk to the stateless reference pairing -/

theorem chainPairs_head_congr {a b : WC.Msg} (hrole : a.role = b.role)
    (hcontent : pyStrip a.content = pyStrip b.content) (l : List WC.Msg) :
    chainPairs (a :: l) = chainPairs (b :: l) := by
  cases l with
  | nil => rfl
  | cons c rest =>
    rw [chainPairs, chainPairs, hrole, hcontent]

theorem chainPairs_cons_not_user {a : WC.Msg} (h : ¬a.role = lit "user")
    (l : List WC.Msg) : chainPairs (a :: l) = chainPairs l := by
  cases l with
  | nil => rfl
  | cons c rest =>
    rw [chainPairs, if_neg (fun hh => h hh.1), List.nil_append]

theorem relevantMsgs_cons_true {m : WC.Msg} (h : qualifyingMsg m = true)
    (rest : List WC.Msg) : relevantMsgs (m :: rest) = m :: relevantMsgs rest := by
  rw [relevantMsgs, List.filter_cons, if_pos h, relevantMsgs]

theorem relevantMsgs_cons_false {m : WC.Msg} (h : qualifyingMsg m = false)
    (rest : List WC.Msg) : relevantMsgs (m :: rest) = relevantMsgs rest := by
  rw [relevantMsgs, List.filter_cons, h, relevantMsgs]
  simp

/-- The walk emits exactly the pairs of the stateless reference pairing of
the qualifying messages, with the pending user message rendered as a
leading user message. -/
theorem extractAux_pairs {sid uid model : Str} {base : Int} {rng : Nat → Nat × Nat} :
    ∀ (msgs : List WC.Msg) (pending : Option Str) (turn_num : Nat),
      (∀ u, pending = some u → pyStrip u = u ∧ u ≠ []) →
      turnPairs (WC.extractAux sid uid model base rng pending turn_num msgs)
        = chainPairs (pendingMsgs pending (relevantMsgs msgs)) := by
  intro msgs
  induction msgs with
  | nil =>
    intro pending tn hp
    cases pending <;>
      simp [WC.extractAux, turnPairs, pendingMsgs, relevantMsgs, chainPairs]
  | cons m rest ih =>
    intro pending tn hp
    rw [WC.extractAux]
    by_cases hc : pyStrip m.content = []
    · have hq : qualifyingMsg m = false := by
        simp [qualifyingMsg, hc]
      rw [if_pos hc, relevantMsgs_cons_false hq]
      exact ih pending tn hp
    · have hne : (pyStrip m.content).isEmpty = false := by
        simp [List.isEmpty_iff, hc]
      by_cases hu : m.role = lit "user"
      · have hq : qualifyingMsg m = true := by
          simp [qualifyingMsg, hne, hu]
        rw [if_neg hc, if_pos hu, relevantMsgs_cons_true hq]
        rw [ih (some (pyStrip m.content)) tn
          (fun u h => by injection h with h'; rw [← h']; exact ⟨pyStrip_idem _, hc⟩)]
        rw [pendingMsgs]
        have hhead : chainPairs (⟨lit "user", pyStrip m.content⟩ :: relevantMsgs rest)
            = chainPairs (m :: relevantMsgs rest) := by
          apply chainPairs_head_congr
          · exact hu.symm
          · exact pyStrip_idem _
        rw [hhead]
        cases pending with
        | none => rw [pendingMsgs]
        | some u =>
          rw [pendingMsgs, chainPairs]
          rw [if_neg (fun hh => by
            have hcontra := hh.2
            rw [hu] at hcontra
            exact absurd hcontra (by decide))]
          rw [List.nil_append]
      · rw [if_neg hc, if_neg hu]
        by_cases ha : m.role = lit "assistant" ∧ truthyOpt pending = true
        · obtain ⟨u, rfl⟩ : ∃ u, pending = some u := by
            cases pending with
            | none => simp [truthyOpt] at ha
            | some u => exact ⟨u, rfl⟩
          obtain ⟨hustr, hune⟩ := hp u rfl
          have hq : qualifyingMsg m = true := by
            simp [qualifyingMsg, hne, ha.1]
          rw [if_pos ha, relevantMsgs_cons_true hq]
          have iw := ih none (tn + 1) (fun _ h => nomatch h)
          rw [turnPairs] at iw ⊢
          rw [List.map_cons, iw]
          rw [pendingMsgs, pendingMsgs, chainPairs]
          rw [if_pos ⟨rfl, ha.1⟩]
          rw [chainPairs_cons_not_user (by rw [ha.1]; decide) (relevantMsgs rest)]
          simp [mkTurnData, hustr]
        · rw [if_neg ha]
          by_cases hrole : m.role = lit "assistant"
          · obtain rfl : pending = none := by
              cases pending with
              | none => rfl
              | some u =>
                obtain ⟨hustr, hune⟩ := hp u rfl
                exact absurd ⟨hrole, by simp [truthyOpt, List.isEmpty_iff, hune]⟩ ha
            have hq : qualifyingMsg m = true := by
              simp [qualifyingMsg, hne, hrole]
            rw [relevantMsgs_cons_true hq]
            rw [ih none tn (fun _ h => nomatch h)]
            rw [pendingMsgs, pendingMsgs]
            rw [chainPairs_cons_not_user (by rw [hrole]; decide)]
          · have hq : qualifyingMsg m = false := by
              simp [qualifyingMsg, hne, hu, hrole]
            rw [relevantMsgs_cons_false hq]
            exact ih pending tn hp

/-! ### The sampler claims -/

open Subset in
/-- C1: Sampler determinism.  For every input table (with the well-formed,
duplicate-free `turn_id` column the turn-level schema guarantees), two runs
of the sampler with identical input and the fixed seed — hence the same
`random.sample` results, here any function `sample` returning duplicate-free
subsets of the pools — produce identical output tables, even though the
selected session ids pass through an unordered set before rows are
collected: the output is the same for every iteration order of that set. -/
theorem C1_sampler_determinism (sample : List String → Nat → List String)
    (rows : List Row) (order₁ order₂ : List String)
    (hsn : (sample (singlePool rows) (targetSingle rows)).Nodup)
    (hss : sample (singlePool rows) (targetSingle rows) ⊆ singlePool rows)
    (hmn : (sample (multiPool rows) (targetMulti rows)).Nodup)
    (hms : sample (multiPool rows) (targetMulti rows) ⊆ multiPool rows)
    (h₁ : order₁.Perm (selectedSessions sample rows))
    (h₂ : order₂.Perm (selectedSessions sample rows))
    (hk : (rowKeys rows).Nodup) :
    createSubset rows order₁ = createSubset rows order₂ := by
  have hseln : (selectedSessions sample rows).Nodup :=
    selectedSessions_nodup hsn hss hmn hms
  have ho₁ : order₁.Nodup := h₁.nodup_iff.mpr hseln
  have ho₂ : order₂.Nodup := h₂.nodup_iff.mpr hseln
  have hfeq : (rows.filter fun r => decide (r.data.session_id ∈ order₁))
      = rows.filter fun r => decide (r.data.session_id ∈ order₂) := by
    apply List.filter_congr
    intro r _
    rw [decide_eq_decide]
    exact h₁.mem_iff.trans h₂.mem_iff.symm
  have hperm : (collectRows rows order₁).Perm (collectRows rows order₂) :=
    ((collect_perm_filter rows order₁ ho₁).trans (List.Perm.of_eq hfeq)).trans
      (collect_perm_filter rows order₂ ho₂).symm
  have hck : (rowKeys (collectRows rows order₁)).Nodup :=
    rowKeys_nodup_of_perm (collect_perm_filter rows order₁ ho₁).symm
      (rowKeys_nodup_of_sublist (List.filter_sublist rows) hk)
  rw [createSubset, createSubset, sortRows_eq_of_perm hperm hck]

/-- Witness for C1 at a concrete table: session `a` single-turn, session `b`
multi-turn, with the two possible set iteration orders. -/
theorem C1_sampler_determinism_witness :
    (Subset.rowKeys wRows).Nodup
      ∧ (["b", "a"] : List String).Perm (Subset.selectedSessions wSample wRows)
      ∧ Subset.createSubset wRows ["a", "b"] = Subset.createSubset wRows ["b", "a"] :=
  ⟨by decide, by decide,
    C1_sampler_determinism wSample wRows ["a", "b"] ["b", "a"] (by decide)
      (by decide) (by decide) (by decide) (by decide) (by decide) (by decide)⟩

open Subset in
/-- C4: The sampler rewrites only `turn_id` — the output rows are, field for
field, the collected rows sorted by ascending original `turn_id`
(`map Row.data` equal position by position), the new ids are the dense
sequence 1..N, and the sorted order is strictly ascending in the original
ids, so the relative order of the turns of any one conversation is
preserved. -/
theorem C4_sampler_frame (rows : List Row) (order : List String)
    (ho : order.Nodup) (hk : (rowKeys rows).Nodup) :
    (createSubset rows order).map Row.data
        = (sortRows (collectRows rows order)).map Row.data
      ∧ (createSubset rows order).length
          = (sortRows (collectRows rows order)).length
      ∧ (∀ i (h : i < (createSubset rows order).length),
          ((createSubset rows order).get ⟨i, h⟩).turn_id = (i : Int) + 1)
      ∧ List.Sorted rowLT (sortRows (collectRows rows order)) := by
  have hck : (rowKeys (collectRows rows order)).Nodup :=
    rowKeys_nodup_of_perm (collect_perm_filter rows order ho).symm
      (rowKeys_nodup_of_sublist (List.filter_sublist rows) hk)
  refine ⟨renumber_map_data _, renumber_length _, ?_, sortRows_sorted_strict _ hck⟩
  intro i h
  exact renumber_turn_id _ i h

/-- Witness for C4 at the concrete three-row table. -/
theorem C4_sampler_frame_witness :
    (["a", "b"] : List String).Nodup ∧ (Subset.rowKeys wRows).Nodup
      ∧ ((Subset.createSubset wRows ["a", "b"]).map Subset.Row.data
            = (Subset.sortRows (Subset.collectRows wRows ["a", "b"])).map Subset.Row.data
          ∧ (Subset.createSubset wRows ["a", "b"]).length
              = (Subset.sortRows (Subset.collectRows wRows ["a", "b"])).length
          ∧ (∀ i (h : i < (Subset.createSubset wRows ["a", "b"]).length),
              ((Subset.createSubset wRows ["a", "b"]).get ⟨i, h⟩).turn_id = (i : Int) + 1)
          ∧ List.Sorted Subset.rowLT (Subset.sortRows (Subset.collectRows wRows ["a", "b"]))) :=
  ⟨by decide, by decide, C4_sampler_frame wRows ["a", "b"] (by decide) (by decide)⟩

open Subset in
/-- C5: The sampler clamps each class target down to its pool size (the
clamped targets are `min 300 |single pool|` and `min 200 |multi pool|`),
the selected sessions number exactly (clamped single) + (clamped multi) and
are pairwise distinct, a session appears in the output exactly when it was
selected, the output rows are — apart from the rewritten `turn_id` —
exactly the input rows of the selected sessions (no partial conversations),
and a pool at most its target is selected in its entirety.  The hypotheses
about `sample` are the contract of `random.sample`: a duplicate-free subset
of the pool of exactly the requested size. -/
theorem C5_sampler_counts (sample : List String → Nat → List String)
    (rows : List Row) (order : List String)
    (hsn : (sample (singlePool rows) (targetSingle rows)).Nodup)
    (hss : sample (singlePool rows) (targetSingle rows) ⊆ singlePool rows)
    (hsl : (sample (singlePool rows) (targetSingle rows)).length = targetSingle rows)
    (hmn : (sample (multiPool rows) (targetMulti rows)).Nodup)
    (hms : sample (multiPool rows) (targetMulti rows) ⊆ multiPool rows)
    (hml : (sample (multiPool rows) (targetMulti rows)).length = targetMulti rows)
    (ho : order.Perm (selectedSessions sample rows)) :
    targetSingle rows = min 300 (singlePool rows).length
      ∧ targetMulti rows = min 200 (multiPool rows).length
      ∧ (selectedSessions sample rows).length = targetSingle rows + targetMulti rows
      ∧ (selectedSessions sample rows).Nodup
      ∧ (∀ s : String, (∃ r ∈ createSubset rows order, r.data.session_id = s)
          ↔ s ∈ selectedSessions sample rows)
      ∧ ((createSubset rows order).map Row.data).Perm
          ((rows.filter fun r =>
              decide (r.data.session_id ∈ selectedSessions sample rows)).map Row.data)
      ∧ ((singlePool rows).length ≤ 300 →
          ∀ s ∈ singlePool rows, s ∈ sample (singlePool rows) (targetSingle rows))
      ∧ ((multiPool rows).length ≤ 200 →
          ∀ s ∈ multiPool rows, s ∈ sample (multiPool rows) (targetMulti rows)) := by
  have hseln : (selectedSessions sample rows).Nodup :=
    selectedSessions_nodup hsn hss hmn hms
  have hond : order.Nodup := ho.nodup_iff.mpr hseln
  have hfeq : (rows.filter fun r => decide (r.data.session_id ∈ order))
      = rows.filter fun r =>
          decide (r.data.session_id ∈ selectedSessions sample rows) := by
    apply List.filter_congr
    intro r _
    rw [decide_eq_decide]
    exact ho.mem_iff
  have hdperm : ((createSubset rows order).map Row.data).Perm
      ((rows.filter fun r =>
          decide (r.data.session_id ∈ selectedSessions sample rows)).map Row.data) := by
    rw [createSubset, renumber_map_data]
    refine List.Perm.map Row.data ?_
    exact (sortRows_perm _).trans
      ((collect_perm_filter rows order hond).trans (List.Perm.of_eq hfeq))
  refine ⟨by unfold targetSingle; split <;> omega,
    by unfold targetMulti; split <;> omega,
    by rw [selectedSessions, List.length_append, hsl, hml],
    hseln, ?_, hdperm, ?_, ?_⟩
  · intro s
    constructor
    · rintro ⟨r, hrmem, rfl⟩
      have h1 : r.data ∈ (createSubset rows order).map Row.data :=
        List.mem_map_of_mem Row.data hrmem
      have h2 := hdperm.mem_iff.mp h1
      rcases List.mem_map.mp h2 with ⟨r', hr', hdata⟩
      have := (List.mem_filter.mp hr').2
      rw [decide_eq_true_iff] at this
      rw [hdata] at this
      exact this
    · intro hs
      have hpool : s ∈ sessionsOf rows := by
        rcases List.mem_append.mp ((List.Perm.refl _).mem_iff.mp hs) with h | h
        · exact mem_pool_mem_sessions.1 (hss h)
        · exact mem_pool_mem_sessions.2 (hms h)
      rcases exists_row_of_mem_sessionsOf hpool with ⟨r, hr, hsid⟩
      have hrf : r ∈ rows.filter fun r =>
          decide (r.data.session_id ∈ selectedSessions sample rows) := by
        rw [List.mem_filter]
        exact ⟨hr, by rw [decide_eq_true_iff, hsid]; exact hs⟩
      have h1 : r.data ∈ (rows.filter fun r =>
          decide (r.data.session_id ∈ selectedSessions sample rows)).map Row.data :=
        List.mem_map_of_mem Row.data hrf
      have h2 := hdperm.mem_iff.mpr h1
      rcases List.mem_map.mp h2 with ⟨r', hr', hdata⟩
      exact ⟨r', hr', by rw [hdata, hsid]⟩
  · intro hle s hsp
    have htgt : targetSingle rows = (singlePool rows).length := by
      unfold targetSingle; split <;> omega
    have hsub : (sample (singlePool rows) (targetSingle rows)).Subperm (singlePool rows) :=
      hsn.subperm hss
    have hperm := hsub.perm_of_length_le (by rw [hsl, htgt])
    exact hperm.mem_iff.mpr hsp
  · intro hle s hsp
    have htgt : targetMulti rows = (multiPool rows).length := by
      unfold targetMulti; split <;> omega
    have hsub : (sample (multiPool rows) (targetMulti rows)).Subperm (multiPool rows) :=
      hmn.subperm hms
    have hperm := hsub.perm_of_length_le (by rw [hml, htgt])
    exact hperm.mem_iff.mpr hsp

/-- Witness for C5 at the concrete three-row table: pools of size 1 are
clamped to 1 and selected in full. -/
theorem C5_sampler_counts_witness :
    (Subset.selectedSessions wSample wRows).length = 2
      ∧ (Subset.targetSingle wRows = min 300 (Subset.singlePool wRows).length
          ∧ Subset.targetMulti wRows = min 200 (Subset.multiPool wRows).length
          ∧ (Subset.selectedSessions wSample wRows).length
              = Subset.targetSingle wRows + Subset.targetMulti wRows
          ∧ (Subset.selectedSessions wSample wRows).Nodup
          ∧ (∀ s : String,
              (∃ r ∈ Subset.createSubset wRows ["a", "b"], r.data.session_id = s)
                ↔ s ∈ Subset.selectedSessions wSample wRows)
          ∧ ((Subset.createSubset wRows ["a", "b"]).map Subset.Row.data).Perm
              ((wRows.filter fun r =>
                  decide (r.data.session_id ∈ Subset.selectedSessions wSample wRows)).map
                Subset.Row.data)
          ∧ ((Subset.singlePool wRows).length ≤ 300 →
              ∀ s ∈ Subset.singlePool wRows,
                s ∈ wSample (Subset.singlePool wRows) (Subset.targetSingle wRows))
          ∧ ((Subset.multiPool wRows).length ≤ 200 →
              ∀ s ∈ Subset.multiPool wRows,
                s ∈ wSample (Subset.multiPool wRows) (Subset.targetMulti wRows))) :=
  ⟨by decide,
    C5_sampler_counts wSample wRows ["a", "b"] (by decide) (by decide) (by decide)
      (by decide) (by decide) (by decide) (by decide)⟩

/-! ### The flattener claims -/

/-- C2: every turn emitted by either flattener has
`total_tokens = prompt_tokens + completion_tokens`, and both token counts
are non-negative (they are naturals, as in the data model). -/
theorem C2_total_tokens :
    (∀ (records : List WC.WCRecord) (rng : Nat → Nat × Nat),
        ∀ t ∈ WC.main records rng,
          t.data.total_tokens = t.data.prompt_tokens + t.data.completion_tokens
            ∧ 0 ≤ t.data.prompt_tokens ∧ 0 ≤ t.data.completion_tokens)
      ∧ (∀ (records : List HF.HFRecord) (uidDraw : Nat → Nat) (modelDraw : Nat → Str)
            (rng : Nat → Nat × Nat),
          ∀ t ∈ HF.mainTurns records uidDraw modelDraw rng,
            t.data.total_tokens = t.data.prompt_tokens + t.data.completion_tokens
              ∧ 0 ≤ t.data.prompt_tokens ∧ 0 ≤ t.data.completion_tokens) := by
  constructor
  · intro records rng t ht
    obtain ⟨i, row, rng', hd⟩ := WC.mainDatas_mem (WC.mem_main ht)
    obtain ⟨-, -, -, -, -, htot, -, -, -, -, -, -⟩ :=
      WC.extractAux_mem none 1 (fun _ h => nomatch h) hd
    exact ⟨htot, Nat.zero_le _, Nat.zero_le _⟩
  · intro records uidDraw modelDraw rng t ht
    obtain ⟨i, row, uidN, model, rng', hd⟩ := HF.mainDatasB_mem (HF.mem_mainTurns ht)
    obtain ⟨-, -, -, -, -, htot, -, -, -, -, -, -⟩ :=
      HF.processPairs_mem [1, 2, 3, 4] 0 hd
    exact ⟨htot, Nat.zero_le _, Nat.zero_le _⟩

/-- C3: Flattener A's walk emits exactly one turn per qualifying assistant
message immediately preceded (among qualifying messages) by a user message,
pairing their stripped contents — equivalently, the emitted (user,
assistant) pairs are the stateless consecutive-pair reading of the
qualifying messages; in particular the two instances of the claim hold. -/
theorem C3_flattenerA_pairing :
    (∀ (msgs : List WC.Msg) (sid uid model : Str) (base : Int) (rng : Nat → Nat × Nat),
        turnPairs (WC.extract_turns_from_messages msgs sid uid model base rng)
          = chainPairs (relevantMsgs msgs))
      ∧ turnPairs (WC.extract_turns_from_messages exMsgs1 (lit "s") (lit "u")
            (lit "m") 0 wRng)
          = [(lit "b", lit "c")]
      ∧ turnPairs (WC.extract_turns_from_messages exMsgs2 (lit "s") (lit "u")
            (lit "m") 0 wRng)
          = [(lit "a", lit "b")] := by
  refine ⟨?_, by decide, by decide⟩
  intro msgs sid uid model base rng
  rw [WC.extract_turns_from_messages]
  rw [extractAux_pairs msgs none 1 (fun _ h => nomatch h), pendingMsgs]

/-- C6: every turn emitted by either flattener has a user message and an
assistant message that are non-empty after stripping. -/
theorem C6_nonempty_messages :
    (∀ (records : List WC.WCRecord) (rng : Nat → Nat × Nat),
        ∀ t ∈ WC.main records rng,
          pyStrip t.data.user_message ≠ [] ∧ pyStrip t.data.assistant_message ≠ [])
      ∧ (∀ (records : List HF.HFRecord) (uidDraw : Nat → Nat) (modelDraw : Nat → Str)
            (rng : Nat → Nat × Nat),
          ∀ t ∈ HF.mainTurns records uidDraw modelDraw rng,
            pyStrip t.data.user_message ≠ []
              ∧ pyStrip t.data.assistant_message ≠ []) := by
  constructor
  · intro records rng t ht
    obtain ⟨i, row, rng', hd⟩ := WC.mainDatas_mem (WC.mem_main ht)
    obtain ⟨-, -, -, -, -, -, -, hsu, hnu, hsa, hna, -⟩ :=
      WC.extractAux_mem none 1 (fun _ h => nomatch h) hd
    rw [hsu, hsa]
    exact ⟨hnu, hna⟩
  · intro records uidDraw modelDraw rng t ht
    obtain ⟨i, row, uidN, model, rng', hd⟩ := HF.mainDatasB_mem (HF.mem_mainTurns ht)
    obtain ⟨-, -, -, -, -, -, -, hsu, hnu, hsa, hna, -⟩ :=
      HF.processPairs_mem [1, 2, 3, 4] 0 hd
    rw [hsu, hsa]
    exact ⟨hnu, hna⟩

/-- C10: in Flattener A's walk, a message whose role is neither `user` nor
`assistant` (a missing role is the empty string, covered by the
quantification) emits no turn and leaves the whole walk state — pending
user message and turn counter — unchanged, exactly like a message whose
content strips to empty. -/
theorem C10_other_roles (sid uid model : Str) (base : Int) (rng : Nat → Nat × Nat)
    (pending : Option Str) (turn_num : Nat) (role content : Str)
    (rest : List WC.Msg)
    (hu : role ≠ lit "user") (ha : role ≠ lit "assistant") :
    WC.extractAux sid uid model base rng pending turn_num (⟨role, content⟩ :: rest)
        = WC.extractAux sid uid model base rng pending turn_num rest
      ∧ ∀ m : WC.Msg, pyStrip m.content = [] →
          WC.extractAux sid uid model base rng pending turn_num (m :: rest)
            = WC.extractAux sid uid model base rng pending turn_num rest := by
  constructor
  · rw [WC.extractAux]
    by_cases hc : pyStrip content = []
    · rw [if_pos hc]
    · rw [if_neg hc, if_neg hu, if_neg (fun hh => ha hh.1)]
  · intro m hm
    rw [WC.extractAux, if_pos hm]

/-- Witness for C10 at a concrete system-role message and a concrete
whitespace-content user message, both with a pending user message. -/
theorem C10_other_roles_witness :
    (lit "system" ≠ lit "user") ∧ (lit "system" ≠ lit "assistant")
      ∧ WC.extractAux (lit "s") (lit "u") (lit "m") 0 wRng (some (lit "x")) 1
            [⟨lit "system", lit "hi"⟩]
          = WC.extractAux (lit "s") (lit "u") (lit "m") 0 wRng (some (lit "x")) 1 []
      ∧ pyStrip (lit "   ") = []
      ∧ WC.extractAux (lit "s") (lit "u") (lit "m") 0 wRng (some (lit "x")) 1
            [⟨lit "user", lit "   "⟩]
          = WC.extractAux (lit "s") (lit "u") (lit "m") 0 wRng (some (lit "x")) 1 [] :=
  ⟨by decide, by decide,
    (C10_other_roles (lit "s") (lit "u") (lit "m") 0 wRng (some (lit "x")) 1
      (lit "system") (lit "hi") [] (by decide) (by decide)).1,
    by decide,
    (C10_other_roles (lit "s") (lit "u") (lit "m") 0 wRng (some (lit "x")) 1
      (lit "system") (lit "hi") [] (by decide) (by decide)).2
      ⟨lit "user", lit "   "⟩ (by decide)⟩

/-- C7 as stated is false on the code: Flattener B looks prices up by exact
model name, not by normalized substrings.  Concretely, Flattener B run on
one record (model draw `claude-instant`, a possible `random.choice` value)
emits one turn with 1 prompt and 2 completion tokens and
`cost_usd = 0.00001` from its own exact-lookup table, whereas the
substring-normalized lookup of the claim prices the same turn at
`0.00006`. -/
theorem C7_cost_counterexample :
    ((HF.mainTurns [hfRec] (fun _ => 100) (fun _ => lit "claude-instant")
          (fun _ => (1000, 80))).map
        (fun t => (t.data.prompt_tokens, t.data.completion_tokens, t.data.model))
        = [(1, 2, lit "claude-instant")])
      ∧ ((HF.mainTurns [hfRec] (fun _ => 100) (fun _ => lit "claude-instant")
            (fun _ => (1000, 80))).map (fun t => t.data.cost_usd)
          = [(1 : ℚ) / 100000])
      ∧ round5 ((1 : ℚ) / 1000 * (WC.cost_pair (lit "claude-instant")).1
            + (2 : ℚ) / 1000 * (WC.cost_pair (lit "claude-instant")).2)
          = (6 : ℚ) / 100000
      ∧ ((1 : ℚ) / 100000) ≠ (6 : ℚ) / 100000 := by
  refine ⟨by decide, ?_, ?_, by norm_num⟩
  · have heval : (HF.mainTurns [hfRec] (fun _ => 100) (fun _ => lit "claude-instant")
          (fun _ => (1000, 80))).map (fun t => t.data.cost_usd)
        = [round5 (HF.calculate_cost (lit "claude-instant") 1 2)] := rfl
    rw [heval]
    have hlk : HF.lookupCost (lit "claude-instant") = (16/10000, 55/10000) := rfl
    rw [HF.calculate_cost, hlk]
    rw [round5, round_eq]
    norm_num
  · have hcp : WC.cost_pair (lit "claude-instant") = (8/1000, 24/1000) := rfl
    rw [hcp, round5, round_eq]
    norm_num

/-- C7, amended: both flatteners price each emitted turn as
`round(prompt/1000 * input + completion/1000 * output, 5)` over the turn's
own recorded token counts, with the shared default pair `(0.001, 0.002)`
when nothing matches — but the price pair is found by the
normalized-substring chain only in Flattener A; Flattener B uses an exact
model-name lookup in its own table. -/
theorem C7_cost_amended :
    (∀ (records : List WC.WCRecord) (rng : Nat → Nat × Nat),
        ∀ t ∈ WC.main records rng,
          t.data.cost_usd = round5
            ((t.data.prompt_tokens : ℚ) / 1000 * (WC.cost_pair t.data.model).1
              + (t.data.completion_tokens : ℚ) / 1000 * (WC.cost_pair t.data.model).2))
      ∧ (∀ (records : List HF.HFRecord) (uidDraw : Nat → Nat) (modelDraw : Nat → Str)
            (rng : Nat → Nat × Nat),
          ∀ t ∈ HF.mainTurns records uidDraw modelDraw rng,
            t.data.cost_usd = round5
              ((t.data.prompt_tokens : ℚ) / 1000 * (HF.lookupCost t.data.model).1
                + (t.data.completion_tokens : ℚ) / 1000 * (HF.lookupCost t.data.model).2))
      ∧ WC.cost_pair [] = (1/1000, 2/1000)
      ∧ HF.lookupCost [] = (1/1000, 2/1000) := by
  refine ⟨?_, ?_, rfl, rfl⟩
  · intro records rng t ht
    obtain ⟨i, row, rng', hd⟩ := WC.mainDatas_mem (WC.mem_main ht)
    obtain ⟨-, -, hmodel, -, -, -, hcost, -, -, -, -, -⟩ :=
      WC.extractAux_mem none 1 (fun _ h => nomatch h) hd
    rw [hcost, ← hmodel, WC.calculate_cost]
  · intro records uidDraw modelDraw rng t ht
    obtain ⟨i, row, uidN, model, rng', hd⟩ := HF.mainDatasB_mem (HF.mem_mainTurns ht)
    obtain ⟨-, -, hmodel, -, -, -, hcost, -, -, -, -, -⟩ :=
      HF.processPairs_mem [1, 2, 3, 4] 0 hd
    rw [hcost, ← hmodel, HF.calculate_cost]

/-- C8: within every conversation of either flattener's output, timestamps
strictly increase (for Flattener A given the input assumption that the
records' resolved conversation hashes are pairwise distinct — a duplicate
hash would merge two records into one session id; for Flattener B the
generated session ids are distinct by construction), and the synthetic
spacing is fixed: Flattener A stamps its record's `p`-th emitted turn at
`base + 30 * (1 + p)` seconds, Flattener B stamps the turn of pair index
`k` at the session base plus one minute per index, `60 * (k - 1)`. -/
theorem C8_timestamps :
    (∀ (records : List WC.WCRecord) (rng : Nat → Nat × Nat),
        (WC.resolvedSessionsFrom 0 records).Nodup →
        List.Pairwise (fun a b : Turn =>
            a.data.session_id = b.data.session_id →
              a.data.timestamp < b.data.timestamp)
          (WC.main records rng))
      ∧ (∀ (idx : Nat) (row : WC.WCRecord) (rng : Nat → Nat × Nat),
          (WC.processRecord idx row rng).map TurnData.timestamp
            = (List.range (WC.processRecord idx row rng).length).map
                (fun p : Nat => WC.baseOf idx row + 30 * ((1 : Int) + (p : Int))))
      ∧ (∀ (records : List HF.HFRecord) (uidDraw : Nat → Nat) (modelDraw : Nat → Str)
            (rng : Nat → Nat × Nat),
          List.Pairwise (fun a b : Turn =>
              a.data.session_id = b.data.session_id →
                a.data.timestamp < b.data.timestamp)
            (HF.mainTurns records uidDraw modelDraw rng))
      ∧ (∀ (idx : Nat) (row : HF.HFRecord) (uidN : Nat) (model : Str)
            (rng : Nat → Nat × Nat),
          (HF.processRecord idx row uidN model rng).map
              (fun d => (d.session_id, d.timestamp))
            = (HF.qualifyingIdxs row).map
                (fun k : Nat =>
                  (HF.sessionOf idx, HF.sessionTs idx + 60 * ((k : Int) - 1)))) := by
  refine ⟨?_, ?_, ?_, ?_⟩
  · intro records rng hnd
    rw [WC.main]
    exact WC.pairwise_turns_of_datas (WC.mainDatas_pairwise hnd)
  · intro idx row rng
    rw [WC.processRecord, WC.extract_turns_from_messages]
    exact WC.extractAux_timestamps row.messages none 1
  · intro records uidDraw modelDraw rng
    rw [HF.mainTurns]
    exact WC.pairwise_turns_of_datas HF.mainDatasB_pairwise
  · intro idx row uidN model rng
    rw [HF.processRecord, HF.qualifyingIdxs]
    exact HF.processPairs_shape [1, 2, 3, 4] 0

/-- Witness for C8's hypothesis at two concrete records with distinct
explicit conversation hashes. -/
theorem C8_timestamps_witness :
    (WC.resolvedSessionsFrom 0 wWCRecords).Nodup
      ∧ List.Pairwise (fun a b : Turn =>
          a.data.session_id = b.data.session_id →
            a.data.timestamp < b.data.timestamp)
        (WC.main wWCRecords wRng) :=
  ⟨by decide, C8_timestamps.1 wWCRecords wRng (by decide)⟩

/-- C9 as stated is false on the code: the first process argument overrides
the environment variable even when the argument is empty.  Concretely, with
`HF_TOKEN` set to a non-empty value and an empty first argument, a
credential *is* supplied via the environment (the claim's condition), yet
the run terminates with the fatal startup error. -/
theorem C9_credential_gate_counterexample :
    HF.run (some (lit "x")) [[]] [] (fun _ => 0) (fun _ => []) (fun _ => (0, 0))
        = Except.error ()
      ∧ HF.credSuppliedSpec (some (lit "x")) [[]] = true :=
  ⟨rfl, rfl⟩

/-- C9, amended: Flattener B terminates with the fatal startup error, before
touching any data, if and only if the effective credential — the first
process argument when one is given, otherwise the environment variable — is
absent or empty; the check precedes all processing, and the embedded model
of everything else is total (no other fatal condition). -/
theorem C9_credential_gate_amended (env : Option Str) (args : List Str) :
    (∀ (records : List HF.HFRecord) (uidDraw : Nat → Nat) (modelDraw : Nat → Str)
        (rng : Nat → Nat × Nat),
        HF.run env args records uidDraw modelDraw rng = Except.error ()
          ↔ (match args with
              | a :: _ => a = []
              | [] => env = none ∨ env = some []))
      ∧ (HF.tokenOk env args = false →
          ∀ (records : List HF.HFRecord) (uidDraw : Nat → Nat)
            (modelDraw : Nat → Str) (rng : Nat → Nat × Nat),
            HF.run env args records uidDraw modelDraw rng = Except.error ()) := by
  constructor
  · intro records uidDraw modelDraw rng
    cases args with
    | cons a rest =>
      cases a with
      | nil => simp [HF.run, HF.tokenOk, HF.tokenResolved]
      | cons c cs => simp [HF.run, HF.tokenOk, HF.tokenResolved]
    | nil =>
      cases env with
      | none => simp [HF.run, HF.tokenOk, HF.tokenResolved]
      | some e =>
        cases e with
        | nil => simp [HF.run, HF.tokenOk, HF.tokenResolved]
        | cons c cs => simp [HF.run, HF.tokenOk, HF.tokenResolved]
  · intro htok records uidDraw modelDraw rng
    rw [HF.run, htok]
    rfl

/-- Witness for C9's amended statement: with no environment variable and no
arguments the token check fails and the run errors out regardless of data. -/
theorem C9_credential_gate_amended_witness :
    HF.tokenOk none [] = false
      ∧ HF.run none [] [hfRec] (fun _ => 100) (fun _ => lit "gpt-4")
          (fun _ => (1000, 80)) = Except.error () :=
  ⟨rfl, (C9_credential_gate_amended none []).2 rfl [hfRec] (fun _ => 100)
    (fun _ => lit "gpt-4") (fun _ => (1000, 80))⟩

/-- Witness for C2 at concrete runs of both flatteners: the first emitted
turn of each satisfies the token identity. -/
theorem C2_total_tokens_witness :
    ((WC.main wWCRecords wRng).headI ∈ WC.main wWCRecords wRng
        ∧ (WC.main wWCRecords wRng).headI.data.total_tokens
            = (WC.main wWCRecords wRng).headI.data.prompt_tokens
              + (WC.main wWCRecords wRng).headI.data.completion_tokens)
      ∧ ((HF.mainTurns [hfRec] (fun _ => 100) (fun _ => lit "claude-instant")
            (fun _ => (1000, 80))).headI
          ∈ HF.mainTurns [hfRec] (fun _ => 100) (fun _ => lit "claude-instant")
              (fun _ => (1000, 80))
        ∧ (HF.mainTurns [hfRec] (fun _ => 100) (fun _ => lit "claude-instant")
            (fun _ => (1000, 80))).headI.data.total_tokens
            = (HF.mainTurns [hfRec] (fun _ => 100) (fun _ => lit "claude-instant")
                (fun _ => (1000, 80))).headI.data.prompt_tokens
              + (HF.mainTurns [hfRec] (fun _ => 100) (fun _ => lit "claude-instant")
                  (fun _ => (1000, 80))).headI.data.completion_tokens) := by
  have hlw : (WC.main wWCRecords wRng).length = 2 := rfl
  have hnw : WC.main wWCRecords wRng ≠ [] := by
    intro h; rw [h] at hlw; simp at hlw
  have hmw := headI_mem_of_ne_nil hnw
  have hlh : (HF.mainTurns [hfRec] (fun _ => 100) (fun _ => lit "claude-instant")
      (fun _ => (1000, 80))).length = 1 := rfl
  have hnh : HF.mainTurns [hfRec] (fun _ => 100) (fun _ => lit "claude-instant")
      (fun _ => (1000, 80)) ≠ [] := by
    intro h; rw [h] at hlh; simp at hlh
  have hmh := headI_mem_of_ne_nil hnh
  exact ⟨⟨hmw, (C2_total_tokens.1 wWCRecords wRng _ hmw).1⟩,
    ⟨hmh, (C2_total_tokens.2 [hfRec] (fun _ => 100) (fun _ => lit "claude-instant")
      (fun _ => (1000, 80)) _ hmh).1⟩⟩

/-- Witness for C6 at the same concrete runs. -/
theorem C6_nonempty_messages_witness :
    ((WC.main wWCRecords wRng).headI ∈ WC.main wWCRecords wRng
        ∧ pyStrip (WC.main wWCRecords wRng).headI.data.user_message ≠ []
        ∧ pyStrip (WC.main wWCRecords wRng).headI.data.assistant_message ≠ [])
      ∧ ((HF.mainTurns [hfRec] (fun _ => 100) (fun _ => lit "claude-instant")
            (fun _ => (1000, 80))).headI
          ∈ HF.mainTurns [hfRec] (fun _ => 100) (fun _ => lit "claude-instant")
              (fun _ => (1000, 80))
        ∧ pyStrip (HF.mainTurns [hfRec] (fun _ => 100)
            (fun _ => lit "claude-instant")
            (fun _ => (1000, 80))).headI.data.user_message ≠ []) := by
  have hlw : (WC.main wWCRecords wRng).length = 2 := rfl
  have hnw : WC.main wWCRecords wRng ≠ [] := by
    intro h; rw [h] at hlw; simp at hlw
  have hmw := headI_mem_of_ne_nil hnw
  have hlh : (HF.mainTurns [hfRec] (fun _ => 100) (fun _ => lit "claude-instant")
      (fun _ => (1000, 80))).length = 1 := rfl
  have hnh : HF.mainTurns [hfRec] (fun _ => 100) (fun _ => lit "claude-instant")
      (fun _ => (1000, 80)) ≠ [] := by
    intro h; rw [h] at hlh; simp at hlh
  have hmh := headI_mem_of_ne_nil hnh
  exact ⟨⟨hmw, C6_nonempty_messages.1 wWCRecords wRng _ hmw⟩,
    ⟨hmh, (C6_nonempty_messages.2 [hfRec] (fun _ => 100)
      (fun _ => lit "claude-instant") (fun _ => (1000, 80)) _ hmh).1⟩⟩

/-- Witness for C7's amended statement at the same concrete runs. -/
theorem C7_cost_amended_witness :
    ((WC.main wWCRecords wRng).headI ∈ WC.main wWCRecords wRng
        ∧ (WC.main wWCRecords wRng).headI.data.cost_usd = round5
            (((WC.main wWCRecords wRng).headI.data.prompt_tokens : ℚ) / 1000
                * (WC.cost_pair (WC.main wWCRecords wRng).headI.data.model).1
              + ((WC.main wWCRecords wRng).headI.data.completion_tokens : ℚ) / 1000
                * (WC.cost_pair (WC.main wWCRecords wRng).headI.data.model).2))
      ∧ ((HF.mainTurns [hfRec] (fun _ => 100) (fun _ => lit "claude-instant")
            (fun _ => (1000, 80))).headI
          ∈ HF.mainTurns [hfRec] (fun _ => 100) (fun _ => lit "claude-instant")
              (fun _ => (1000, 80))
        ∧ (HF.mainTurns [hfRec] (fun _ => 100) (fun _ => lit "claude-instant")
            (fun _ => (1000, 80))).headI.data.cost_usd = round5
            (((HF.mainTurns [hfRec] (fun _ => 100) (fun _ => lit "claude-instant")
                (fun _ => (1000, 80))).headI.data.prompt_tokens : ℚ) / 1000
                * (HF.lookupCost (HF.mainTurns [hfRec] (fun _ => 100)
                    (fun _ => lit "claude-instant")
                    (fun _ => (1000, 80))).headI.data.model).1
              + ((HF.mainTurns [hfRec] (fun _ => 100) (fun _ => lit "claude-instant")
                  (fun _ => (1000, 80))).headI.data.completion_tokens : ℚ) / 1000
                * (HF.lookupCost (HF.mainTurns [hfRec] (fun _ => 100)
                    (fun _ => lit "claude-instant")
                    (fun _ => (1000, 80))).headI.data.model).2)) := by
  have hlw : (WC.main wWCRecords wRng).length = 2 := rfl
  have hnw : WC.main wWCRecords wRng ≠ [] := by
    intro h; rw [h] at hlw; simp at hlw
  have hmw := headI_mem_of_ne_nil hnw
  have hlh : (HF.mainTurns [hfRec] (fun _ => 100) (fun _ => lit "claude-instant")
      (fun _ => (1000, 80))).length = 1 := rfl
  have hnh : HF.mainTurns [hfRec] (fun _ => 100) (fun _ => lit "claude-instant")
      (fun _ => (1000, 80)) ≠ [] := by
    intro h; rw [h] at hlh; simp at hlh
  have hmh := headI_mem_of_ne_nil hnh
  exact ⟨⟨hmw, C7_cost_amended.1 wWCRecords wRng _ hmw⟩,
    ⟨hmh, (C7_cost_amended.2.1 [hfRec] (fun _ => 100)
      (fun _ => lit "claude-instant") (fun _ => (1000, 80)) _ hmh)⟩⟩

end FluffyViz
